import Mathlib

/-!
# outfile: solver-log parser and timing aggregator

A shallow embedding of `outfile.go` and the properties of its block
delimiter (`getLimIter`), record parser (`IterInfo.Parse`), loader
(`FullInfo.Load`) and aggregator (`reduceIterations` and its clients).

Conventions of the embedding

* A Go `string` is a Lean `String`; the log is assumed to be valid UTF-8, so
  that byte offsets used for slicing correspond to character offsets. All
  markers the program looks for are ASCII.
* A Go `int` is 64 bits wide. `time.Duration` is an `int64` count of
  nanoseconds, embedded as an `Int` kept in range by `wrap64`.
* A run-time panic (index out of range, slice bounds out of range, integer
  division by zero) is the value `none` of an `Option`.
* The `float64` fields of the record are kept abstract: the record is
  parametric in the type `F` of floats and in `strconv.ParseFloat`, see
  `FloatOps`. The `float64` arithmetic inside `time.ParseDuration` is computed
  exactly, on rationals rounded to the nearest `float64`, see `roundF64`.
-/

namespace Outfile

/-! ## Strings (package `strings`) -/

/-- Go `strings.HasPrefix(s, prefix)`. -/
def HasPrefix (s p : String) : Bool :=
  p.data.isPrefixOf s.data

/-- Scan for an occurrence of `sub` starting at any position of the list. -/
def containsAux (sub : List Char) : List Char → Bool
  | [] => sub.isEmpty
  | c :: cs => sub.isPrefixOf (c :: cs) || containsAux sub cs

/-- Go `strings.Contains(s, substr)`. -/
def Contains (s sub : String) : Bool :=
  containsAux sub.data s.data

/-- Scan left to right remembering the last position at which `sep` occurs;
`i` is the position of the head of the list, `acc` the last match so far. -/
def lastIndexAux (sep : List Char) : List Char → Nat → Int → Int
  | [], i, acc => if sep.isEmpty then (i : Int) else acc
  | c :: cs, i, acc =>
    lastIndexAux sep cs (i + 1) (if sep.isPrefixOf (c :: cs) then (i : Int) else acc)

/-- Go `strings.LastIndex(s, sep)`: the index of the last occurrence of `sep`
in `s`, or `-1` when there is none. -/
def LastIndex (s sep : String) : Int :=
  lastIndexAux sep.data s.data 0 (-1)

/-- Go `unicode.IsSpace`: the characters with the Unicode White_Space
property. -/
def isSpace (c : Char) : Bool :=
  let n := c.toNat
  (9 ≤ n && n ≤ 13) || n == 32 || n == 0x85 || n == 0xA0 || n == 0x1680 ||
  (0x2000 ≤ n && n ≤ 0x200A) || n == 0x2028 || n == 0x2029 || n == 0x202F ||
  n == 0x205F || n == 0x3000

/-- Go `strings.TrimSpace` on the character list. -/
def trimSpaceChars (cs : List Char) : List Char :=
  ((cs.dropWhile isSpace).reverse.dropWhile isSpace).reverse

/-- Go `strings.TrimSpace(s)`. -/
def TrimSpace (s : String) : String :=
  ⟨trimSpaceChars s.data⟩

/-- Replacement of the non-overlapping occurrences of a non-empty `old`, left
to right; `skip` counts the characters of a matched occurrence that are still
to be dropped. -/
def replaceAux (old new : List Char) : List Char → Nat → List Char
  | [], _ => []
  | _ :: cs, skip + 1 => replaceAux old new cs skip
  | c :: cs, 0 =>
    if old.isPrefixOf (c :: cs) then new ++ replaceAux old new cs (old.length - 1)
    else c :: replaceAux old new cs 0

/-- Go `strings.ReplaceAll(s, old, new)`. An empty `old` matches at the
beginning of the string and after every character. -/
def ReplaceAll (s old new : String) : String :=
  if old.data.isEmpty then
    ⟨new.data ++ (s.data.map (fun c => c :: new.data)).flatten⟩
  else
    ⟨replaceAux old.data new.data s.data 0⟩

/-- Go slice expression `data[lo:hi]`, which panics unless `lo ≤ hi` and `hi`
is within the slice. The bound used is the length (the Go bound is the
capacity, which is at least the length). -/
def slice {α : Type} (data : List α) (lo hi : Nat) : Option (List α) :=
  if lo ≤ hi ∧ hi ≤ data.length then some ((data.take hi).drop lo) else none

/-! ## The block delimiter -/

/-- The loop of `getLimIter`: `ind` is the index of the head of the remaining
lines, `b` and `e` are the slices built so far. The assignment
`e[len(e)-1] = ind` panics when `e` is empty. -/
def getLimIterLoop : List String → Nat → List Nat → List Nat → Option (List Nat × List Nat)
  | [], _, b, e => some (b, e)
  | line :: rest, ind, b, e =>
    if HasPrefix line "Iteration: " then
      getLimIterLoop rest (ind + 1) (b ++ [ind]) (e ++ [ind])
    else if HasPrefix line "Design change: " then
      if e.length = 0 then none
      else getLimIterLoop rest (ind + 1) b (e.set (e.length - 1) ind)
    else
      getLimIterLoop rest (ind + 1) b e

/-- Source function `getLimIter`: the start and end indices of the iteration blocks. -/
def getLimIter (data : List String) : Option (List Nat × List Nat) :=
  getLimIterLoop data 0 [] []

/-! ## Integers and durations (packages `strconv` and `time`) -/

/-- Two's-complement reduction of an integer to the `int64` range. -/
def wrap64 (x : Int) : Int :=
  (x + 2 ^ 63) % 2 ^ 64 - 2 ^ 63

/-- `time.Duration`: an `int64` number of nanoseconds. -/
abbrev Duration := Int

/-- An ASCII decimal digit. -/
def isDigit (c : Char) : Bool :=
  48 ≤ c.toNat && c.toNat ≤ 57

/-- The value of a string made of decimal digits only; `none` if another
character occurs. -/
def digitsValue : List Char → Nat → Option Nat
  | [], acc => some acc
  | c :: cs, acc => if isDigit c then digitsValue cs (acc * 10 + (c.toNat - 48)) else none

/-- Go `strconv.Atoi(s)` for a 64-bit `int`: an optional sign followed by one
or more decimal digits, the value within the `int64` range; `none` stands for
a non-nil error (syntax or range). -/
def Atoi (s : String) : Option Int :=
  let body : Bool × List Char :=
    match s.data with
    | '-' :: r => (true, r)
    | '+' :: r => (false, r)
    | r => (false, r)
  if body.2.isEmpty then none
  else
    match digitsValue body.2 0 with
    | none => none
    | some n =>
      if body.1 then (if n ≤ 2 ^ 63 then some (-(n : Int)) else none)
      else (if n ≤ 2 ^ 63 - 1 then some (n : Int) else none)

/-- Go `time.leadingInt`: the leading decimal digits of the string as a
`uint64` and the rest of the string; `none` when the value exceeds `1<<63`. -/
def leadingInt : List Char → Nat → Option (Nat × List Char)
  | [], x => some (x, [])
  | c :: cs, x =>
    if !isDigit c then some (x, c :: cs)
    else if x > 2 ^ 63 / 10 then none
    else
      if x * 10 + (c.toNat - 48) > 2 ^ 63 then none
      else leadingInt cs (x * 10 + (c.toNat - 48))

/-- Go `time.leadingFraction`: the leading digits as an integer `x` together
with the number `k` of digits taken (the Go `scale` is the `float64` obtained
by multiplying 1 by 10 once for each of them, `scaleF64 k`) and the rest of the
string. Digits beyond what fits are consumed and ignored. -/
def leadingFraction : List Char → Nat → Nat → Bool → Nat × Nat × List Char
  | [], x, k, _ => (x, k, [])
  | c :: cs, x, k, overflow =>
    if !isDigit c then (x, k, c :: cs)
    else if overflow then leadingFraction cs x k true
    else if x > (2 ^ 63 - 1) / 10 then leadingFraction cs x k true
    else
      if x * 10 + (c.toNat - 48) > 2 ^ 63 then leadingFraction cs x k true
      else leadingFraction cs (x * 10 + (c.toNat - 48)) (k + 1) false

/-- The number of binary digits of `n`, counted with at most `fuel` halvings. -/
def bitLengthAux : Nat → Nat → Nat
  | 0, _ => 0
  | fuel + 1, n => if n = 0 then 0 else bitLengthAux fuel (n / 2) + 1

/-- The number of binary digits of `n`; `n` halvings always reach zero. -/
def bitLength (n : Nat) : Nat :=
  bitLengthAux n n

/-- The `float64` nearest to the non-negative rational `n / d`, ties to even
(IEEE 754 binary64: 53 significant bits, subnormal numbers in steps of
`2^-1074`, overflow from `2^1024` on). A finite result `some (m, e)` stands for
`m * 2^e`, with `m ≤ 2^53` and `e ≥ -1074`; `none` stands for `+Inf`, which is
the result when the rounded `m * 2^e`, with `m ≥ 2^52`, reaches `2^1024`,
that is when `e > 971`, or `e = 971` and `m = 2^53`. -/
def roundF64 (n d : Nat) : Option (Nat × Int) :=
  if n = 0 ∨ d = 0 then some (0, 0)
  else
    let e0 : Int := (bitLength n : Int) - (bitLength d : Int) - 53
    let q0 := (n * 2 ^ (-e0).toNat) / (d * 2 ^ e0.toNat)
    let e1 : Int := if q0 < 2 ^ 53 then e0 else e0 + 1
    let e : Int := if e1 < -1074 then -1074 else e1
    let num := n * 2 ^ (-e).toNat
    let den := d * 2 ^ e.toNat
    let q := num / den
    let r := num % den
    let m := if 2 * r > den ∨ (2 * r = den ∧ q % 2 = 1) then q + 1 else q
    if e > 971 ∨ (e = 971 ∧ m ≥ 2 ^ 53) then none else some (m, e)

/-- The `float64` variable `scale` of `time.leadingFraction` after `k` digits
were taken: it starts at 1 and is multiplied by 10 once for each digit, every
product being rounded (the products are exact up to `10^22`, and `+Inf` from
`k = 309` on). -/
def scaleF64 : Nat → Option (Nat × Int)
  | 0 => some (1, 0)
  | k + 1 =>
    match scaleF64 k with
    | none => none
    | some (m, e) => roundF64 (m * 10 * 2 ^ e.toNat) (2 ^ (-e).toNat)

/-- The Go expression `uint64(float64(f) * (float64(unit) / scale))` of
`time.ParseDuration`, where `scale` is the `float64` built by
`time.leadingFraction` over `k` digits: the conversion of `f`, the quotient and
the product are each rounded to `float64`, and the conversion to `uint64`
truncates. A `unit` is below `2^53`, so `float64(unit)` is exact; the quotient
by `+Inf` is zero; the product is finite and below `2^64`. -/
def fracNanos (f k unit : Nat) : Nat :=
  let quotient : Option (Nat × Int) :=
    match scaleF64 k with
    | none => some (0, 0)
    | some (m, e) => roundF64 (unit * 2 ^ (-e).toNat) (m * 2 ^ e.toNat)
  match roundF64 f 1, quotient with
  | some (ma, ea), some (mq, eq) =>
    match roundF64 (ma * mq * 2 ^ (ea + eq).toNat) (2 ^ (-(ea + eq)).toNat) with
    | some (m, e) => (m * 2 ^ e.toNat) / 2 ^ (-e).toNat
    | none => 0
  | _, _ => 0

/-- Go `time.unitMap`: nanoseconds per unit. -/
def unitMap (u : String) : Option Nat :=
  if u = "ns" then some 1
  else if u = "us" then some 1000
  else if u = "µs" then some 1000
  else if u = "μs" then some 1000
  else if u = "ms" then some 1000000
  else if u = "s" then some 1000000000
  else if u = "m" then some 60000000000
  else if u = "h" then some 3600000000000
  else none

/-- The part `(\.[0-9]*)?` of a round of `time.ParseDuration`: the fraction
`f`, its number of digits `k`, the rest of the string, and whether a digit was
consumed after the period (`post`). -/
def fractionPart (s1 : List Char) : Nat × Nat × List Char × Bool :=
  match s1 with
  | '.' :: s2 =>
    let r := leadingFraction s2 0 0 false
    (r.1, r.2.1, r.2.2, decide (s2.length ≠ r.2.2.length))
  | _ => (0, 0, s1, false)

/-- The arithmetic of a round of `time.ParseDuration` on `uint64` values: the
number `v` with the fraction `f` over `k` digits, in the unit of `unit`
nanoseconds, is added to the magnitude `d`; `none` is an overflow error. -/
def addChunk (d v f k unit : Nat) : Option Nat :=
  if v > 2 ^ 63 / unit then none
  else
    let v1 := v * unit
    let v2 := if f > 0 then v1 + fracNanos f k unit else v1
    if f > 0 ∧ v2 > 2 ^ 63 then none
    else
      let d1 := (d + v2) % 2 ^ 64
      if d1 > 2 ^ 63 then none else some d1

/-- One round of the main loop of `time.ParseDuration`, on a non-empty
string `s` and the `uint64` magnitude `d` accumulated so far: a number, an
optional fraction and a unit are consumed; the result is the rest of the
string and the new magnitude, or `none` for an error. -/
def parseDurationStep (s : List Char) (d : Nat) : Option (List Char × Nat) :=
  match s with
  | [] => none
  | c :: cs =>
    if !(c = '.' || isDigit c) then none
    else
      match leadingInt (c :: cs) 0 with
      | none => none
      | some (v, s1) =>
        let pre := decide ((c :: cs).length ≠ s1.length)
        let fr := fractionPart s1
        if !pre && !fr.2.2.2 then none
        else
          let u := fr.2.2.1.takeWhile (fun x => !(x = '.' || isDigit x))
          let s4 := fr.2.2.1.dropWhile (fun x => !(x = '.' || isDigit x))
          if u.isEmpty then none
          else
            match unitMap ⟨u⟩ with
            | none => none
            | some unit =>
              match addChunk d v fr.1 fr.2.1 unit with
              | none => none
              | some d1 => some (s4, d1)

/-- The main loop of `time.ParseDuration` (`for s != ""`). Each round consumes
at least one character (`parseDurationStep_length`), so a fuel equal to the
length of the string is never used up (`parseDurationLoop_fuel`). -/
def parseDurationLoop : Nat → List Char → Nat → Option Nat
  | _, [], d => some d
  | 0, _ :: _, _ => none
  | fuel + 1, c :: cs, d =>
    match parseDurationStep (c :: cs) d with
    | none => none
    | some (rest, d1) => parseDurationLoop fuel rest d1

/-- Go `time.ParseDuration(s)`: `[-+]?([0-9]*(\.[0-9]*)?[a-z]+)+`; `none`
stands for a non-nil error. -/
def ParseDuration (s : String) : Option Duration :=
  let body : Bool × List Char :=
    match s.data with
    | '-' :: r => (true, r)
    | '+' :: r => (false, r)
    | r => (false, r)
  if body.2 = ['0'] then some 0
  else if body.2.isEmpty then none
  else
    match parseDurationLoop body.2.length body.2 0 with
    | none => none
    | some d =>
      if body.1 then some (wrap64 (-(d : Int)))
      else if d > 2 ^ 63 - 1 then none
      else some (d : Int)

/-! ## Field extraction -/

/-- Source function `getDataAfterColon`: the text after the last colon,
trimmed. `LastIndex` is `-1` when the line has no colon, and the slice is then
the whole line. -/
def getDataAfterColon (line : String) : String :=
  TrimSpace ⟨line.data.drop (LastIndex line ":" + 1).toNat⟩

/-- Source function `getTime`: the duration text with the words turned into
unit suffixes, parsed by `time.ParseDuration`. -/
def getTime (t : String) : Option Duration :=
  ParseDuration (ReplaceAll (ReplaceAll t " seconds " "s") " milliseconds" "ms")

/-! ## Records and the record parser -/

/-- The floating-point side of the program, kept abstract: the type `F` of
`float64` values, `strconv.ParseFloat(s, 64)` (`none` stands for a non-nil
error) and the two constants the program uses, `-1.0` and the zero value. -/
structure FloatOps (F : Type) where
  ParseFloat : String → Option F
  negOne : F
  zero : F

/-- Source type `IterInfo`: the record of one iteration. -/
structure IterInfo (F : Type) where
  Number : Int
  PreparingTime : Duration
  SolvingTime : Duration
  Eigenvalues : List F
  Objective : F
  VolumeConstrain : F
  DesignChange : F
deriving DecidableEq

/-- The zero value of `IterInfo`, as declared by `var iter IterInfo`. -/
def IterInfo.fresh {F : Type} (ops : FloatOps F) : IterInfo F :=
  { Number := 0, PreparingTime := 0, SolvingTime := 0, Eigenvalues := [],
    Objective := ops.zero, VolumeConstrain := ops.zero, DesignChange := ops.zero }

/-- The pattern `v, err := strconv.ParseFloat(val, 64); if err != nil { v = -1.0 }`. -/
def floatOrNegOne {F : Type} (ops : FloatOps F) (val : String) : F :=
  match ops.ParseFloat val with
  | some v => v
  | none => ops.negOne

/-- The pattern `n, err := strconv.Atoi(val); if err != nil { n = -1 }`. -/
def intOrNegOne (val : String) : Int :=
  match Atoi val with
  | some n => n
  | none => -1

/-- The pattern `d, _ = getTime(val)`: `time.ParseDuration` returns the zero
duration together with every error. -/
def timeOrZero (val : String) : Duration :=
  match getTime val with
  | some d => d
  | none => 0

/-- The body of the loop of `IterInfo.Parse` for one line. -/
def parseLine {F : Type} (ops : FloatOps F) (iter : IterInfo F) (line : String) : IterInfo F :=
  if !Contains line ":" then iter
  else if HasPrefix line "Iteration:" then
    { iter with Number := intOrNegOne (getDataAfterColon line) }
  else if HasPrefix line "Objective:" then
    { iter with Objective := floatOrNegOne ops (getDataAfterColon line) }
  else if HasPrefix line "Eigenvalue" then
    { iter with Eigenvalues := iter.Eigenvalues ++ [floatOrNegOne ops (getDataAfterColon line)] }
  else if HasPrefix line "Volume constraint:" then
    { iter with VolumeConstrain := floatOrNegOne ops (getDataAfterColon line) }
  else if HasPrefix line "Design change:" then
    { iter with DesignChange := floatOrNegOne ops (getDataAfterColon line) }
  else if HasPrefix line "Preparing:" then
    { iter with PreparingTime := timeOrZero (getDataAfterColon line) }
  else if HasPrefix line "Solving:" then
    { iter with SolvingTime := timeOrZero (getDataAfterColon line) }
  else iter

/-- Source method `IterInfo.Parse`: the lines are processed in order, each
updating the record in place. -/
def IterInfo.Parse {F : Type} (ops : FloatOps F) (iter : IterInfo F) (data : List String) :
    IterInfo F :=
  data.foldl (parseLine ops) iter

/-! ## The report, its loader and the aggregator -/

/-- Source type `FullInfo`: the report. -/
structure FullInfo (F : Type) where
  Iterations : List (IterInfo F)
deriving DecidableEq

/-- Source method `FullInfo.reduceIterations`. -/
def FullInfo.reduceIterations {F : Type} (info : FullInfo F) (key : IterInfo F → Duration)
    (op : Duration → Duration → Duration) : Duration :=
  info.Iterations.foldl (fun result it => op result (key it)) 0

/-- Source function `timeSolPrep` (`int64` addition). -/
def timeSolPrep {F : Type} (i : IterInfo F) : Duration :=
  wrap64 (i.SolvingTime + i.PreparingTime)

/-- Source function `timeSol`. -/
def timeSol {F : Type} (i : IterInfo F) : Duration :=
  i.SolvingTime

/-- Source function `timePrep`. -/
def timePrep {F : Type} (i : IterInfo F) : Duration :=
  i.PreparingTime

/-- Source function `sum` (`int64` addition). -/
def sum (a b : Duration) : Duration :=
  wrap64 (a + b)

/-- Source function `max`. -/
def max (a b : Duration) : Duration :=
  if a > b then a else b

/-- Source function `min`. -/
def min (a b : Duration) : Duration :=
  if a < b then a else b

/-- Source method `FullInfo.TotalTimePreparing`. -/
def FullInfo.TotalTimePreparing {F : Type} (info : FullInfo F) : Duration :=
  info.reduceIterations timePrep sum

/-- Source method `FullInfo.TotalTimeSolving`. -/
def FullInfo.TotalTimeSolving {F : Type} (info : FullInfo F) : Duration :=
  info.reduceIterations timeSol sum

/-- Source method `FullInfo.TotalTime`. -/
def FullInfo.TotalTime {F : Type} (info : FullInfo F) : Duration :=
  info.reduceIterations timeSolPrep sum

/-- Source method `FullInfo.NumberOfIter`. -/
def FullInfo.NumberOfIter {F : Type} (info : FullInfo F) : Nat :=
  info.Iterations.length

/-- Go `a / b` on `int64`: truncated division, a panic when `b` is zero. -/
def div64 (a b : Int) : Option Int :=
  if b = 0 then none else some (wrap64 (Int.tdiv a b))

/-- Source method `FullInfo.AvgTime`. -/
def FullInfo.AvgTime {F : Type} (info : FullInfo F) : Option Duration :=
  div64 info.TotalTime (info.NumberOfIter : Int)

/-- The loop `for i := range b` of `Load`: `bs` are the elements of `b` from
index `i` on, `acc` is `info.Iterations`. Both `e[i]` and the slice expression
`data[begin : end+1]` can panic. -/
def loadLoop {F : Type} (ops : FloatOps F) (data : List String) (e : List Nat) :
    List Nat → Nat → List (IterInfo F) → Option (List (IterInfo F))
  | [], _, acc => some acc
  | begin :: bs, i, acc =>
    match e[i]? with
    | none => none
    | some last =>
      match slice data begin (last + 1) with
      | none => none
      | some block =>
        loadLoop ops data e bs (i + 1) (acc ++ [IterInfo.Parse ops (IterInfo.fresh ops) block])

/-- Source method `FullInfo.Load`, given the result `(data, err)` of
`GetRawFile(f)`. The result is the report after the call and the returned
error; `none` is a panic. -/
def FullInfo.Load {F : Type} (ops : FloatOps F) (info : FullInfo F)
    (raw : List String × Option String) : Option (FullInfo F × Option String) :=
  match raw.2 with
  | some err => some (info, some err)
  | none =>
    match getLimIter raw.1 with
    | none => none
    | some (b, e) =>
      match loadLoop ops raw.1 e b 0 [] with
      | none => none
      | some its => some ({ Iterations := its }, none)

/-- A reference instance of `FloatOps`: a float is kept as its decimal
numeral `mantissa * 10^(-scale)`; the numerals read are the plain ones, an
optional sign, digits and an optional fractional part. -/
structure Decimal where
  mantissa : Int
  scale : Nat
deriving DecidableEq

/-- Reading of a plain decimal numeral. -/
def parseDecimal (s : String) : Option Decimal :=
  let body : Bool × List Char :=
    match s.data with
    | '-' :: r => (true, r)
    | '+' :: r => (false, r)
    | r => (false, r)
  let ip := body.2.takeWhile isDigit
  let rest := body.2.dropWhile isDigit
  let fp : Option (List Char) :=
    match rest with
    | [] => some []
    | '.' :: r => if r.all isDigit then some r else none
    | _ => none
  match fp with
  | none => none
  | some fd =>
    if ip.isEmpty && fd.isEmpty then none
    else
      match digitsValue (ip ++ fd) 0 with
      | none => none
      | some n => some { mantissa := if body.1 then -(n : Int) else (n : Int), scale := fd.length }

/-- The reference instance of `FloatOps` on decimal numerals. -/
def decimalOps : FloatOps Decimal :=
  { ParseFloat := parseDecimal, negOne := { mantissa := -1, scale := 0 },
    zero := { mantissa := 0, scale := 0 } }

/-! ## Example inputs -/

/-- The iteration block used as the worked example of the specification. -/
def exampleBlock : List String :=
  ["Iteration: 3", "Objective: 1.25", "Eigenvalue 1: 0.5", "Eigenvalue 2: 0.7",
   "Volume constraint: 0.01", "Preparing: 1 seconds 500 milliseconds",
   "Solving: 2 seconds", "Design change: 0.002"]

/-- The record that `Parse` builds from `exampleBlock` with the reference
floats. -/
def exampleRecord : IterInfo Decimal :=
  { Number := 3, PreparingTime := 1500000000, SolvingTime := 0,
    Eigenvalues := [{ mantissa := 5, scale := 1 }, { mantissa := 7, scale := 1 }],
    Objective := { mantissa := 125, scale := 2 },
    VolumeConstrain := { mantissa := 1, scale := 2 },
    DesignChange := { mantissa := 2, scale := 3 } }

/-- A log of two blocks, the first with two Design change lines, the second
with none, and a line between the blocks. -/
def twoBlockLog : List String :=
  ["header", "Iteration: 1", "Design change: 0.5", "Objective: 2", "Design change: 0.25",
   "trailer", "Iteration: 2", "Objective: 4"]

/-- A log whose single iteration spends 2 562 047 hours in each phase: each
duration fits in an `int64`, their sum does not. -/
def longRunLog : List String :=
  ["Iteration: 1", "Preparing: 2562047h", "Solving: 2562047h", "Design change: 0"]

/-- The report loaded from `longRunLog`. -/
def longRunReport : FullInfo Decimal :=
  { Iterations := [{ Number := 1, PreparingTime := 9223369200000000000,
                     SolvingTime := 9223369200000000000, Eigenvalues := [],
                     Objective := { mantissa := 0, scale := 0 },
                     VolumeConstrain := { mantissa := 0, scale := 0 },
                     DesignChange := { mantissa := 0, scale := 0 } }] }

/-- The report of the specification's timing example: two iterations of
(prep = 1 s, solve = 2 s) and (prep = 0.5 s, solve = 1.5 s). -/
def timingReport : FullInfo Decimal :=
  { Iterations := [{ Number := 1, PreparingTime := 1000000000, SolvingTime := 2000000000,
                     Eigenvalues := [], Objective := { mantissa := 0, scale := 0 },
                     VolumeConstrain := { mantissa := 0, scale := 0 },
                     DesignChange := { mantissa := 0, scale := 0 } },
                   { Number := 2, PreparingTime := 500000000, SolvingTime := 1500000000,
                     Eigenvalues := [], Objective := { mantissa := 0, scale := 0 },
                     VolumeConstrain := { mantissa := 0, scale := 0 },
                     DesignChange := { mantissa := 0, scale := 0 } }] }

/-- A log with the line `"Iteration:7"`, which has the prefix of the record
parser but not the marker of the block delimiter. -/
def tightIterationLog : List String :=
  ["Iteration: 1", "Iteration:7", "Design change: 0.5"]

/-- A log whose last line `"Design change:0.9"` has the prefix of the record
parser but not the marker of the block delimiter. -/
def tightDesignLog : List String :=
  ["Iteration: 1", "Design change: 0.5", "Design change:0.9"]

/-- A log whose first line begins with `"Design change: "` and whose only
iteration block, `Iteration: 1` followed by `Objective: 4`, has no line
beginning with `"Design change: "`. -/
def leadingDesignLog : List String :=
  ["Design change: 0", "Iteration: 1", "Objective: 4"]

/-- A report of one iteration whose solving time is negative, as read from
the line `"Solving: -5s"`. -/
def negativeReport : FullInfo Decimal :=
  { Iterations := [{ Number := 1, PreparingTime := 0, SolvingTime := -5000000000,
                     Eigenvalues := [], Objective := { mantissa := 0, scale := 0 },
                     VolumeConstrain := { mantissa := 0, scale := 0 },
                     DesignChange := { mantissa := 0, scale := 0 } }] }

/-! ## Specification vocabulary for the record parser -/

/-- Two records agree on every field other than `Objective`. -/
def AgreeExceptObjective {F : Type} (a b : IterInfo F) : Prop :=
  a.Number = b.Number ∧ a.PreparingTime = b.PreparingTime ∧ a.SolvingTime = b.SolvingTime ∧
  a.Eigenvalues = b.Eigenvalues ∧ a.VolumeConstrain = b.VolumeConstrain ∧
  a.DesignChange = b.DesignChange

/-- Two records agree on every field other than `VolumeConstrain`. -/
def AgreeExceptVolume {F : Type} (a b : IterInfo F) : Prop :=
  a.Number = b.Number ∧ a.PreparingTime = b.PreparingTime ∧ a.SolvingTime = b.SolvingTime ∧
  a.Eigenvalues = b.Eigenvalues ∧ a.Objective = b.Objective ∧
  a.DesignChange = b.DesignChange

/-- Two records agree on every field other than `DesignChange`. -/
def AgreeExceptDesign {F : Type} (a b : IterInfo F) : Prop :=
  a.Number = b.Number ∧ a.PreparingTime = b.PreparingTime ∧ a.SolvingTime = b.SolvingTime ∧
  a.Eigenvalues = b.Eigenvalues ∧ a.Objective = b.Objective ∧
  a.VolumeConstrain = b.VolumeConstrain

/-! ## Specification vocabulary for the block delimiter -/

/-- The indices of the lines that begin with the marker `"Iteration: "`, in
increasing order: entry `i` is the index of the `i`-th such line. -/
def iterationLines (data : List String) : List Nat :=
  (List.range data.length).filter (fun j => HasPrefix (data.getD j "") "Iteration: ")

/-- The index `t` closes the block that starts at `s` and is followed by the
next block (or the end of the input) at `nx`: it lies in the block, it is the
start itself or a line beginning with `"Design change: "`, and no later line of
the block begins with that marker. -/
def BlockEnd (data : List String) (s nx t : Nat) : Prop :=
  s ≤ t ∧ t < nx ∧
  (t = s ∨ ∃ l, data[t]? = some l ∧ HasPrefix l "Design change: " = true) ∧
  ∀ j l, t < j → j < nx → data[j]? = some l → HasPrefix l "Design change: " = false

/-- Every block of `b`, `e` is closed as `BlockEnd` says, the block after the
last one being the end of the input. -/
def EndsOK (data : List String) (b e : List Nat) : Prop :=
  e.length = b.length ∧
  ∀ i s t, b[i]? = some s → e[i]? = some t →
    BlockEnd data s ((b[i + 1]?).getD data.length) t

/-! ## Specification vocabulary for the dispatch by prefix -/

/-- The seven fields that a line can set, one for each recognized prefix. -/
inductive Field where
  | number
  | objective
  | eigenvalue
  | volume
  | design
  | preparing
  | solving
deriving DecidableEq

/-- The prefix that selects a field in `IterInfo.Parse`. -/
def Field.marker : Field → String
  | .number => "Iteration:"
  | .objective => "Objective:"
  | .eigenvalue => "Eigenvalue"
  | .volume => "Volume constraint:"
  | .design => "Design change:"
  | .preparing => "Preparing:"
  | .solving => "Solving:"

/-- The update that `IterInfo.Parse` makes for a field, given the value text. -/
def Field.apply {F : Type} (ops : FloatOps F) (f : Field) (val : String) (it : IterInfo F) :
    IterInfo F :=
  match f with
  | .number => { it with Number := intOrNegOne val }
  | .objective => { it with Objective := floatOrNegOne ops val }
  | .eigenvalue => { it with Eigenvalues := it.Eigenvalues ++ [floatOrNegOne ops val] }
  | .volume => { it with VolumeConstrain := floatOrNegOne ops val }
  | .design => { it with DesignChange := floatOrNegOne ops val }
  | .preparing => { it with PreparingTime := timeOrZero val }
  | .solving => { it with SolvingTime := timeOrZero val }

/-- The order in which `IterInfo.Parse` checks the prefixes. -/
def sourceOrder : List Field :=
  [.number, .objective, .eigenvalue, .volume, .design, .preparing, .solving]

/-- The dispatch of the specification with the prefixes checked in the order
`order`, first match wins: a line without a colon is skipped, a line matching
none of the prefixes is ignored. -/
def parseLineOrdered {F : Type} (ops : FloatOps F) (order : List Field) (it : IterInfo F)
    (line : String) : IterInfo F :=
  if !Contains line ":" then it
  else
    match order.find? (fun f => HasPrefix line f.marker) with
    | some f => f.apply ops (getDataAfterColon line) it
    | none => it

/-- Two records agree on every field other than the field `f`. -/
def AgreeExcept {F : Type} (f : Field) (a b : IterInfo F) : Prop :=
  (f ≠ .number → a.Number = b.Number) ∧
  (f ≠ .objective → a.Objective = b.Objective) ∧
  (f ≠ .eigenvalue → a.Eigenvalues = b.Eigenvalues) ∧
  (f ≠ .volume → a.VolumeConstrain = b.VolumeConstrain) ∧
  (f ≠ .design → a.DesignChange = b.DesignChange) ∧
  (f ≠ .preparing → a.PreparingTime = b.PreparingTime) ∧
  (f ≠ .solving → a.SolvingTime = b.SolvingTime)

/-! ## Termination of the duration parser -/

theorem leadingInt_length :
    ∀ (s : List Char) (x v : Nat) (r : List Char),
      leadingInt s x = some (v, r) → r.length ≤ s.length := by
  intro s
  induction s with
  | nil =>
    intro x v r h
    simp only [leadingInt, Option.some.injEq, Prod.mk.injEq] at h
    rw [← h.2]
  | cons c cs ih =>
    intro x v r h
    unfold leadingInt at h
    split at h
    · simp only [Option.some.injEq, Prod.mk.injEq] at h
      rw [← h.2]
    · split at h
      · exact absurd h (by simp)
      · split at h
        · exact absurd h (by simp)
        · have := ih _ _ _ h
          simp only [List.length_cons]
          omega

theorem leadingFraction_length :
    ∀ (s : List Char) (x k : Nat) (ov : Bool),
      (leadingFraction s x k ov).2.2.length ≤ s.length := by
  intro s
  induction s with
  | nil => intro x k ov; simp [leadingFraction]
  | cons c cs ih =>
    intro x k ov
    unfold leadingFraction
    split
    · simp
    · split
      · have := ih x k true
        simp only [List.length_cons]; omega
      · split
        · have := ih x k true
          simp only [List.length_cons]; omega
        · split
          · have := ih x k true
            simp only [List.length_cons]; omega
          · have := ih (x * 10 + (c.toNat - 48)) (k + 1) false
            simp only [List.length_cons]; omega

theorem takeWhile_dropWhile_length {α : Type} (p : α → Bool) (l : List α) :
    (l.takeWhile p).length + (l.dropWhile p).length = l.length := by
  rw [← List.length_append, List.takeWhile_append_dropWhile]

theorem fractionPart_length (s1 : List Char) :
    (fractionPart s1).2.2.1.length ≤ s1.length := by
  unfold fractionPart
  split
  · rename_i s2
    have := leadingFraction_length s2 0 0 false
    simp only [List.length_cons]
    omega
  · exact le_refl _

/-- Every round of the duration loop consumes at least one character. -/
theorem parseDurationStep_length {s rest : List Char} {d d1 : Nat}
    (h : parseDurationStep s d = some (rest, d1)) : rest.length < s.length := by
  unfold parseDurationStep at h
  split at h
  · exact absurd h (by simp)
  · rename_i c cs
    split at h
    · exact absurd h (by simp)
    · split at h
      · exact absurd h (by simp)
      · rename_i v s1 hli
        have h1 := leadingInt_length _ _ _ _ hli
        have h2 := fractionPart_length s1
        simp only at h
        generalize fractionPart s1 = fr at h h2
        split at h
        · exact absurd h (by simp)
        · split at h
          · exact absurd h (by simp)
          · rename_i hu
            split at h
            · exact absurd h (by simp)
            · split at h
              · exact absurd h (by simp)
              · simp only [Option.some.injEq, Prod.mk.injEq] at h
                obtain ⟨hrest, -⟩ := h
                rw [← hrest]
                have h3 := takeWhile_dropWhile_length (fun x => !(x = '.' || isDigit x)) fr.2.2.1
                have hpos :
                    0 < (fr.2.2.1.takeWhile (fun x => !(x = '.' || isDigit x))).length := by
                  cases htw : fr.2.2.1.takeWhile (fun x => !(x = '.' || isDigit x)) with
                  | nil => rw [htw] at hu; exact absurd hu (by simp)
                  | cons _ _ => simp
                omega

/-- The fuel of the duration loop is immaterial once it covers the string. -/
theorem parseDurationLoop_fuel :
    ∀ (fuel fuel' : Nat) (s : List Char) (d : Nat),
      s.length ≤ fuel → s.length ≤ fuel' →
      parseDurationLoop fuel s d = parseDurationLoop fuel' s d := by
  intro fuel
  induction fuel with
  | zero =>
    intro fuel' s d h _
    have hs : s = [] := List.length_eq_zero.mp (by omega)
    subst hs
    cases fuel' <;> rfl
  | succ n ih =>
    intro fuel' s d h h'
    cases s with
    | nil => cases fuel' <;> rfl
    | cons c cs =>
      cases fuel' with
      | zero => simp at h'
      | succ m =>
        simp only [parseDurationLoop]
        cases hstep : parseDurationStep (c :: cs) d with
        | none => rfl
        | some p =>
          obtain ⟨rest, d1⟩ := p
          have := parseDurationStep_length hstep
          simp only [List.length_cons] at this h h'
          exact ih m rest d1 (by omega) (by omega)

set_option maxRecDepth 20000 in
/-- The fraction of a duration goes through `float64` as in Go: over 22
digits the variable `scale` is `10^22` exactly (`4768371582031250 * 2^21`),
over 23 digits it is the rounded product `1e22 * 10`, and the fraction
`0.00000002777805555555555` of an hour is 100001 ns, one more than with an
exact `10^23`. -/
theorem fracNanos_rounded_scale :
    scaleF64 22 = some (4768371582031250, 21) ∧
    scaleF64 23 = some (5960464477539062, 24) ∧
    fracNanos 2777805555555555 23 3600000000000 = 100001 ∧
    ParseDuration "0.00000002777805555555555h" = some 100001 := by
  decide

set_option maxRecDepth 20000 in
/-- Durations that depend on the rounding of the fraction: the first
overflows by one nanosecond, the second wraps the `uint64` magnitude and is
accepted as 5 ns, the last two are 20 min and 49 min 48.372539827 s. -/
theorem parseDuration_rounding_examples :
    ParseDuration "9223372036854675807ns0.00000002777805555555555h" = none ∧
    ParseDuration
      "9223372036854675807ns0.00000002777805555555555h9223372036854775808ns5ns" = some 5 ∧
    ParseDuration "0.3333333333333333333h" = some 1200000000000 ∧
    ParseDuration "0.830103483285477580700h" = some 2988372539827 := by
  decide

theorem iterationLines_snoc (pre : List String) (l : String) :
    iterationLines (pre ++ [l]) =
      iterationLines pre ++ (if HasPrefix l "Iteration: " then [pre.length] else []) := by
  unfold iterationLines
  rw [List.length_append, List.length_singleton, List.range_succ, List.filter_append]
  congr 1
  · apply List.filter_congr
    intro j hj
    rw [List.mem_range] at hj
    simp [List.getD_eq_getElem?_getD, List.getElem?_append_left hj]
  · by_cases h : HasPrefix l "Iteration: " = true <;>
      simp [List.getD_eq_getElem?_getD, List.filter_cons, h]

theorem mem_iterationLines {data : List String} {x : Nat} (h : x ∈ iterationLines data) :
    x < data.length ∧ ∃ l, data[x]? = some l ∧ HasPrefix l "Iteration: " = true := by
  unfold iterationLines at h
  rw [List.mem_filter, List.mem_range] at h
  refine ⟨h.1, data[x], by simp [h.1], ?_⟩
  have := h.2
  simpa [List.getD_eq_getElem?_getD, h.1] using this

theorem iterationLines_length (data : List String) :
    (iterationLines data).length = data.countP (fun l => HasPrefix l "Iteration: ") := by
  induction data using List.reverseRecOn with
  | nil => rfl
  | append_singleton pre l ih =>
    rw [iterationLines_snoc, List.length_append, ih, List.countP_append]
    by_cases h : HasPrefix l "Iteration: " = true <;> simp [h]

theorem iterationLines_pairwise (data : List String) :
    (iterationLines data).Pairwise (· < ·) :=
  List.Pairwise.sublist (List.filter_sublist _) (List.pairwise_lt_range _)

theorem BlockEnd.snoc {pre : List String} {s nx t : Nat} (l : String)
    (h : BlockEnd pre s nx t) (hn : nx ≤ pre.length) : BlockEnd (pre ++ [l]) s nx t := by
  obtain ⟨h1, h2, h3, h4⟩ := h
  refine ⟨h1, h2, ?_, ?_⟩
  · rcases h3 with h3 | ⟨x, hx, hd⟩
    · exact Or.inl h3
    · exact Or.inr ⟨x, by rw [List.getElem?_append_left (by omega)]; exact hx, hd⟩
  · intro j x hj1 hj2 hx
    rw [List.getElem?_append_left (by omega)] at hx
    exact h4 j x hj1 hj2 hx

theorem BlockEnd.snoc_open {pre : List String} {s t : Nat} (l : String)
    (h : BlockEnd pre s pre.length t) (hl : HasPrefix l "Design change: " = false) :
    BlockEnd (pre ++ [l]) s (pre.length + 1) t := by
  obtain ⟨h1, h2, h3, h4⟩ := h
  refine ⟨h1, by omega, ?_, ?_⟩
  · rcases h3 with h3 | ⟨x, hx, hd⟩
    · exact Or.inl h3
    · exact Or.inr ⟨x, by rw [List.getElem?_append_left (by omega)]; exact hx, hd⟩
  · intro j x hj1 hj2 hx
    by_cases hj : j < pre.length
    · rw [List.getElem?_append_left hj] at hx
      exact h4 j x hj1 hj hx
    · have hje : j = pre.length := by omega
      subst hje
      simp at hx
      subst hx
      exact hl

theorem getElem?_lt_of_iterationLines {pre : List String} {i x : Nat}
    (h : (iterationLines pre)[i]? = some x) : x < pre.length :=
  (mem_iterationLines (List.getElem?_mem h)).1

theorem EndsOK.push {pre : List String} {b e : List Nat} (l : String)
    (hb : b = iterationLines pre) (h : EndsOK pre b e) :
    EndsOK (pre ++ [l]) (b ++ [pre.length]) (e ++ [pre.length]) := by
  obtain ⟨hlen, hblk⟩ := h
  refine ⟨by simp [hlen], ?_⟩
  intro i s t hs ht
  by_cases hi : i < b.length
  · rw [List.getElem?_append_left hi] at hs
    rw [List.getElem?_append_left (by omega)] at ht
    have hold := hblk i s t hs ht
    by_cases hi1 : i + 1 < b.length
    · rw [List.getElem?_append_left hi1]
      have hsome : b[i + 1]? = some b[i + 1] := by simp [hi1]
      rw [hsome] at hold ⊢
      simp only [Option.getD_some] at hold ⊢
      have hx : b[i + 1] < pre.length := by
        apply getElem?_lt_of_iterationLines (i := i + 1)
        rw [← hb]; exact hsome
      exact hold.snoc l (by omega)
    · have hnone : b[i + 1]? = none := by simp; omega
      have hnew : (b ++ [pre.length])[i + 1]? = some pre.length := by
        have : i + 1 = b.length := by omega
        rw [this]; simp
      rw [hnone] at hold
      rw [hnew]
      simp only [Option.getD_none, Option.getD_some] at hold ⊢
      exact hold.snoc l (le_refl _)
  · by_cases hi2 : i = b.length
    · subst hi2
      simp at hs
      have ht2 : (e ++ [pre.length])[b.length]? = some pre.length := by
        rw [← hlen]; simp
      rw [ht2] at ht
      simp at ht
      subst hs; subst ht
      have hnone : (b ++ [pre.length])[b.length + 1]? = none := by simp
      rw [hnone]
      simp only [Option.getD_none, List.length_append, List.length_singleton]
      exact ⟨le_refl _, by omega, Or.inl rfl, fun j x h1 h2 _ => by omega⟩
    · have : (b ++ [pre.length])[i]? = none := by simp; omega
      rw [this] at hs
      exact absurd hs (by simp)

theorem EndsOK.skip {pre : List String} {b e : List Nat} (l : String)
    (hb : b = iterationLines pre) (h : EndsOK pre b e)
    (hl : HasPrefix l "Design change: " = false) :
    EndsOK (pre ++ [l]) b e := by
  obtain ⟨hlen, hblk⟩ := h
  refine ⟨hlen, ?_⟩
  intro i s t hs ht
  have hold := hblk i s t hs ht
  by_cases hi1 : i + 1 < b.length
  · have hsome : b[i + 1]? = some b[i + 1] := by simp [hi1]
    rw [hsome] at hold ⊢
    simp only [Option.getD_some] at hold ⊢
    have hx : b[i + 1] < pre.length := by
      apply getElem?_lt_of_iterationLines (i := i + 1)
      rw [← hb]; exact hsome
    exact hold.snoc l (by omega)
  · have hnone : b[i + 1]? = none := by simp; omega
    rw [hnone] at hold ⊢
    simp only [Option.getD_none, List.length_append, List.length_singleton] at hold ⊢
    exact hold.snoc_open l hl

theorem EndsOK.close {pre : List String} {b e : List Nat} (l : String)
    (hb : b = iterationLines pre) (h : EndsOK pre b e)
    (hl : HasPrefix l "Design change: " = true) :
    EndsOK (pre ++ [l]) b (e.set (e.length - 1) pre.length) := by
  obtain ⟨hlen, hblk⟩ := h
  refine ⟨by simp [hlen], ?_⟩
  intro i s t hs ht
  have hib : i < b.length := by
    by_contra hc
    have : b[i]? = none := by simp; omega
    rw [this] at hs; exact absurd hs (by simp)
  by_cases hi1 : i + 1 < b.length
  · have hne : e.length - 1 ≠ i := by omega
    rw [List.getElem?_set_ne hne] at ht
    have hold := hblk i s t hs ht
    have hsome : b[i + 1]? = some b[i + 1] := by simp [hi1]
    rw [hsome] at hold ⊢
    simp only [Option.getD_some] at hold ⊢
    have hx : b[i + 1] < pre.length := by
      apply getElem?_lt_of_iterationLines (i := i + 1)
      rw [← hb]; exact hsome
    exact hold.snoc l (by omega)
  · have hie : e.length - 1 = i := by omega
    rw [hie, List.getElem?_set_self (by omega)] at ht
    simp at ht
    subst ht
    have hnone : b[i + 1]? = none := by simp; omega
    rw [hnone]
    simp only [Option.getD_none, List.length_append, List.length_singleton]
    have hs' : s < pre.length := by
      apply getElem?_lt_of_iterationLines (i := i)
      rw [← hb]; exact hs
    exact ⟨by omega, by omega, Or.inr ⟨l, by simp, hl⟩, fun j x h1 h2 _ => by omega⟩

/-- The loop invariant of `getLimIter`: after the lines `pre`, the starts are
the Iteration lines of `pre` and every block is closed correctly within
`pre`. It is carried to the end of the input by every run that completes. -/
theorem getLimIterLoop_spec (rest : List String) :
    ∀ (pre : List String) (b e b' e' : List Nat),
      b = iterationLines pre → EndsOK pre b e →
      getLimIterLoop rest pre.length b e = some (b', e') →
      b' = iterationLines (pre ++ rest) ∧ EndsOK (pre ++ rest) b' e' := by
  induction rest with
  | nil =>
    intro pre b e b' e' hb hE h
    simp only [getLimIterLoop, Option.some.injEq, Prod.mk.injEq] at h
    obtain ⟨rfl, rfl⟩ := h
    simpa using ⟨hb, hE⟩
  | cons line rest ih =>
    intro pre b e b' e' hb hE h
    have happ : pre ++ line :: rest = (pre ++ [line]) ++ rest := by simp
    have hlen : (pre ++ [line]).length = pre.length + 1 := by simp
    rw [happ]
    unfold getLimIterLoop at h
    by_cases hI : HasPrefix line "Iteration: " = true
    · rw [if_pos hI, ← hlen] at h
      refine ih (pre ++ [line]) _ _ b' e' ?_ (hE.push line hb) h
      rw [iterationLines_snoc, if_pos hI, hb]
    · rw [if_neg hI] at h
      have hb2 : b = iterationLines (pre ++ [line]) := by
        rw [iterationLines_snoc, if_neg hI, hb]; simp
      by_cases hD : HasPrefix line "Design change: " = true
      · rw [if_pos hD] at h
        by_cases he : e.length = 0
        · rw [if_pos he] at h
          exact absurd h (by simp)
        · rw [if_neg he, ← hlen] at h
          exact ih (pre ++ [line]) _ _ b' e' hb2 (hE.close line hb hD) h
      · rw [if_neg hD, ← hlen] at h
        exact ih (pre ++ [line]) _ _ b' e' hb2
          (hE.skip line hb (by simpa using hD)) h

theorem getLimIter_spec {data : List String} {b e : List Nat}
    (h : getLimIter data = some (b, e)) :
    b = iterationLines data ∧ EndsOK data b e := by
  have := getLimIterLoop_spec data [] [] [] b e rfl
    ⟨rfl, fun i s t hs _ => absurd hs (by simp)⟩ h
  simpa using this

/-- Once a block is open the loop of `getLimIter` cannot panic. -/
theorem getLimIterLoop_isSome (rest : List String) :
    ∀ (ind : Nat) (b e : List Nat), e ≠ [] → (getLimIterLoop rest ind b e).isSome = true := by
  induction rest with
  | nil => intro ind b e _; rfl
  | cons line rest ih =>
    intro ind b e he
    unfold getLimIterLoop
    have hlen : ¬ e.length = 0 := fun h => he (List.length_eq_zero.mp h)
    by_cases hI : HasPrefix line "Iteration: " = true
    · rw [if_pos hI]
      exact ih _ _ _ (by simp)
    · rw [if_neg hI]
      by_cases hD : HasPrefix line "Design change: " = true
      · rw [if_pos hD, if_neg hlen]
        refine ih _ _ _ ?_
        intro hnil
        have := congrArg List.length hnil
        rw [List.length_set] at this
        exact hlen this
      · rw [if_neg hD]
        exact ih _ _ _ he

/-- The loop of `getLimIter` panics exactly when a line beginning with
`"Design change: "` comes before every line beginning with `"Iteration: "`. -/
theorem getLimIterLoop_eq_none_iff (rest : List String) :
    ∀ ind : Nat, getLimIterLoop rest ind [] [] = none ↔
      ∃ pre l post, rest = pre ++ l :: post ∧
        (∀ x ∈ pre, HasPrefix x "Iteration: " = false) ∧
        HasPrefix l "Iteration: " = false ∧ HasPrefix l "Design change: " = true := by
  induction rest with
  | nil =>
    intro ind
    constructor
    · intro h; exact absurd h (by simp [getLimIterLoop])
    · rintro ⟨pre, l, post, h, -⟩
      exact absurd h (by simp)
  | cons line rest ih =>
    intro ind
    unfold getLimIterLoop
    by_cases hI : HasPrefix line "Iteration: " = true
    · rw [if_pos hI]
      constructor
      · intro h
        have := getLimIterLoop_isSome rest (ind + 1) ([] ++ [ind]) ([] ++ [ind]) (by simp)
        rw [h] at this
        exact absurd this (by decide)
      · rintro ⟨pre, l, post, h, hpre, hl, -⟩
        cases pre with
        | nil =>
          simp only [List.nil_append, List.cons.injEq] at h
          rw [← h.1, hI] at hl
          exact absurd hl (by decide)
        | cons p pre =>
          simp only [List.cons_append, List.cons.injEq] at h
          have := hpre p (List.mem_cons_self _ _)
          rw [← h.1, hI] at this
          exact absurd this (by decide)
    · rw [if_neg hI]
      have hI' : HasPrefix line "Iteration: " = false := by simpa using hI
      by_cases hD : HasPrefix line "Design change: " = true
      · rw [if_pos hD, if_pos List.length_nil]
        exact ⟨fun _ => ⟨[], line, rest, rfl, fun x hx => absurd hx (List.not_mem_nil x), hI', hD⟩,
          fun _ => rfl⟩
      · rw [if_neg hD, ih (ind + 1)]
        constructor
        · rintro ⟨pre, l, post, h, hpre, hl, hd⟩
          refine ⟨line :: pre, l, post, by rw [h]; rfl, ?_, hl, hd⟩
          intro x hx
          rcases List.mem_cons.mp hx with rfl | hx
          · exact hI'
          · exact hpre x hx
        · rintro ⟨pre, l, post, h, hpre, hl, hd⟩
          cases pre with
          | nil =>
            simp only [List.nil_append, List.cons.injEq] at h
            rw [← h.1] at hd
            exact absurd hd hD
          | cons p pre =>
            simp only [List.cons_append, List.cons.injEq] at h
            exact ⟨pre, l, post, h.2, fun x hx => hpre x (List.mem_cons_of_mem _ hx), hl, hd⟩

/-- The inputs on which `getLimIter` panics. -/
theorem getLimIter_eq_none_iff (data : List String) :
    getLimIter data = none ↔
      ∃ pre l post, data = pre ++ l :: post ∧
        (∀ x ∈ pre, HasPrefix x "Iteration: " = false) ∧
        HasPrefix l "Iteration: " = false ∧ HasPrefix l "Design change: " = true :=
  getLimIterLoop_eq_none_iff data 0

/-! ## The loader -/

theorem loadLoop_length {F : Type} (ops : FloatOps F) (data : List String) (e : List Nat) :
    ∀ (bs : List Nat) (i : Nat) (acc its : List (IterInfo F)),
      loadLoop ops data e bs i acc = some its → its.length = acc.length + bs.length := by
  intro bs
  induction bs with
  | nil =>
    intro i acc its h
    simp only [loadLoop, Option.some.injEq] at h
    subst h; simp
  | cons s bs ih =>
    intro i acc its h
    unfold loadLoop at h
    split at h
    · exact absurd h (by simp)
    · split at h
      · exact absurd h (by simp)
      · have := ih _ _ _ h
        simp at this ⊢
        omega

theorem loadLoop_isSome {F : Type} (ops : FloatOps F) (data : List String) (e : List Nat) :
    ∀ (bs : List Nat) (i : Nat) (acc : List (IterInfo F)),
      (∀ k s, bs[k]? = some s → ∃ t, e[i + k]? = some t ∧ s ≤ t + 1 ∧ t + 1 ≤ data.length) →
      (loadLoop ops data e bs i acc).isSome = true := by
  intro bs
  induction bs with
  | nil => intro i acc _; simp [loadLoop]
  | cons s bs ih =>
    intro i acc h
    obtain ⟨t, ht, h1, h2⟩ := h 0 s (by simp)
    unfold loadLoop
    simp only [Nat.add_zero] at ht
    rw [ht]
    simp only [slice, if_pos (And.intro h1 h2)]
    apply ih
    intro k s' hs'
    have := h (k + 1) s' (by simpa using hs')
    have e1 : i + (k + 1) = i + 1 + k := by omega
    rw [e1] at this
    exact this

/-- The bounds of every block returned by a run of `getLimIter` that completes. -/
theorem getLimIter_bounds {data : List String} {b e : List Nat}
    (h : getLimIter data = some (b, e)) {i s t : Nat}
    (hs : b[i]? = some s) (ht : e[i]? = some t) :
    s ≤ t ∧ t < (b[i + 1]?).getD data.length ∧ (b[i + 1]?).getD data.length ≤ data.length := by
  obtain ⟨hb, hlen, hblk⟩ := getLimIter_spec h
  have hB := hblk i s t hs ht
  refine ⟨hB.1, hB.2.1, ?_⟩
  cases hn : b[i + 1]? with
  | none => simp
  | some x =>
    have : x < data.length := by
      apply getElem?_lt_of_iterationLines (i := i + 1)
      rw [← hb]; exact hn
    simp; omega

theorem iterationLines_gap {data : List String} {i s j : Nat} {l : String}
    (hs : (iterationLines data)[i]? = some s) (h1 : s < j)
    (h2 : j < ((iterationLines data)[i + 1]?).getD data.length)
    (hl : data[j]? = some l) : HasPrefix l "Iteration: " = false := by
  by_contra hc
  have hp : HasPrefix l "Iteration: " = true := by simpa using hc
  obtain ⟨hj, hjl⟩ := List.getElem?_eq_some_iff.mp hl
  have hmem : j ∈ iterationLines data := by
    unfold iterationLines
    rw [List.mem_filter, List.mem_range]
    refine ⟨hj, ?_⟩
    simpa [List.getD_eq_getElem?_getD, hl] using hp
  obtain ⟨k, hk⟩ := List.mem_iff_getElem?.mp hmem
  obtain ⟨hkl, hkv⟩ := List.getElem?_eq_some_iff.mp hk
  obtain ⟨hil, hiv⟩ := List.getElem?_eq_some_iff.mp hs
  have hpw := List.pairwise_iff_getElem.mp (iterationLines_pairwise data)
  by_cases hki : k ≤ i
  · by_cases hke : k = i
    · subst hke; omega
    · have := hpw k i hkl hil (by omega)
      omega
  · by_cases hke : k = i + 1
    · subst hke
      rw [hk] at h2
      simp at h2
    · have hi1 : i + 1 < (iterationLines data).length := by omega
      have := hpw (i + 1) k hi1 hkl (by omega)
      have e1 : (iterationLines data)[i + 1]? = some (iterationLines data)[i + 1] := by
        simp [hi1]
      rw [e1] at h2
      simp only [Option.getD_some] at h2
      omega

/-! ## Claims on the block delimiter and the loader -/

/-- C1 (the code departs from the claim): on the one-line log
`"Design change: 0.1"`, which has no Iteration marker, `getLimIter` indexes
the empty slice `e` at `len(e)-1` and panics, and so does `Load` on a readable
source holding that log, instead of producing the empty report. -/
theorem C1_getLimIter_panics_before_first_iteration :
    (["Design change: 0.1"] : List String).countP (fun l => HasPrefix l "Iteration: ") = 0 ∧
    getLimIter ["Design change: 0.1"] = none ∧
    FullInfo.Load decimalOps { Iterations := [] } (["Design change: 0.1"], none) = none := by
  decide

/-- C2: when `Load` completes on a readable source, the number of iterations
of the loaded report is the number of lines that begin with `"Iteration: "`,
and the report is empty exactly when no line begins with that marker. -/
theorem C2_numberOfIter_counts_markers {F : Type} (ops : FloatOps F) (info info' : FullInfo F)
    (data : List String) (err : Option String)
    (h : FullInfo.Load ops info (data, none) = some (info', err)) :
    info'.NumberOfIter = data.countP (fun l => HasPrefix l "Iteration: ") ∧
    (info'.Iterations = [] ↔ ∀ l ∈ data, HasPrefix l "Iteration: " = false) := by
  unfold FullInfo.Load at h
  simp only at h
  cases hg : getLimIter data with
  | none => rw [hg] at h; exact absurd h (by simp)
  | some be =>
    obtain ⟨b, e⟩ := be
    rw [hg] at h
    simp only at h
    cases hl : loadLoop ops data e b 0 [] with
    | none => rw [hl] at h; exact absurd h (by simp)
    | some its =>
      rw [hl] at h
      simp only [Option.some.injEq, Prod.mk.injEq] at h
      obtain ⟨rfl, -⟩ := h
      have hlen := loadLoop_length ops data e b 0 [] its hl
      have hb := (getLimIter_spec hg).1
      have hcount : its.length = data.countP (fun l => HasPrefix l "Iteration: ") := by
        rw [hlen, hb, iterationLines_length]; simp
      refine ⟨hcount, ?_⟩
      show its = [] ↔ _
      rw [← List.length_eq_zero, hcount, List.countP_eq_zero]
      simp

/-- Witness for C2: the example block loads into a report of one iteration. -/
theorem C2_numberOfIter_counts_markers_witness :
    FullInfo.Load decimalOps { Iterations := [] } (exampleBlock, none)
        = some ({ Iterations := [exampleRecord] }, none) ∧
    (({ Iterations := [exampleRecord] } : FullInfo Decimal).NumberOfIter
        = exampleBlock.countP (fun l => HasPrefix l "Iteration: ") ∧
      (({ Iterations := [exampleRecord] } : FullInfo Decimal).Iterations = [] ↔
        ∀ l ∈ exampleBlock, HasPrefix l "Iteration: " = false)) :=
  ⟨by decide, C2_numberOfIter_counts_markers decimalOps { Iterations := [] } _ exampleBlock none
    (by decide)⟩

/-- C5: when delimiting completes, `start[i]` is the index of the `i`-th line
beginning with `"Iteration: "`; with `nx` the next start (or the number of
lines for the last block), no line strictly between `start[i]` and `nx` begins
with `"Iteration: "`, and `end[i]` is the index of the last line beginning
with `"Design change: "` strictly between `start[i]` and `nx` if there is one,
and `start[i]` otherwise. -/
theorem C5_block_ranges (data : List String) (b e : List Nat)
    (h : getLimIter data = some (b, e)) :
    b = iterationLines data ∧ e.length = b.length ∧
    ∀ (i : Nat) (hb : i < b.length) (he : i < e.length),
      (∀ j l, b[i] < j → j < (b[i + 1]?).getD data.length → data[j]? = some l →
        HasPrefix l "Iteration: " = false) ∧
      ((∃ j l, b[i] < j ∧ j < (b[i + 1]?).getD data.length ∧ data[j]? = some l ∧
          HasPrefix l "Design change: " = true) →
        b[i] < e[i] ∧ e[i] < (b[i + 1]?).getD data.length ∧
        (∃ l, data[e[i]]? = some l ∧ HasPrefix l "Design change: " = true) ∧
        ∀ j l, e[i] < j → j < (b[i + 1]?).getD data.length → data[j]? = some l →
          HasPrefix l "Design change: " = false) ∧
      ((¬ ∃ j l, b[i] < j ∧ j < (b[i + 1]?).getD data.length ∧ data[j]? = some l ∧
          HasPrefix l "Design change: " = true) → e[i] = b[i]) := by
  obtain ⟨hb, hlen, hblk⟩ := getLimIter_spec h
  refine ⟨hb, hlen, ?_⟩
  intro i hib hie
  have hs : b[i]? = some b[i] := by simp [hib]
  have ht : e[i]? = some e[i] := by simp [hie]
  obtain ⟨h1, h2, h3, h4⟩ := hblk i b[i] e[i] hs ht
  refine ⟨?_, ?_, ?_⟩
  · intro j l hj1 hj2 hl
    have hs' : (iterationLines data)[i]? = some b[i] := by rw [← hb]; exact hs
    refine iterationLines_gap hs' hj1 ?_ hl
    rw [← hb]; exact hj2
  · rintro ⟨j, l, hj1, hj2, hl, hd⟩
    rcases h3 with h3 | h3
    · have := h4 j l (by omega) hj2 hl
      rw [hd] at this
      exact absurd this (by simp)
    · refine ⟨?_, h2, h3, h4⟩
      rcases Nat.lt_or_ge b[i] e[i] with hlt | hge
      · exact hlt
      · have heq : e[i] = b[i] := by omega
        have := h4 j l (by omega) hj2 hl
        rw [hd] at this
        exact absurd this (by simp)
  · intro hno
    rcases h3 with h3 | ⟨l, hl, hd⟩
    · exact h3
    · by_contra hne
      exact hno ⟨e[i], l, by omega, h2, hl, hd⟩

/-- Witness for C5: the blocks of the two-block log are `[1, 4]` and `[6, 6]`. -/
theorem C5_block_ranges_witness :
    getLimIter twoBlockLog = some ([1, 6], [4, 6]) ∧
    ([1, 6] = iterationLines twoBlockLog ∧ [4, 6].length = [1, 6].length) :=
  ⟨by decide,
   (C5_block_ranges twoBlockLog [1, 6] [4, 6] (by decide)).1,
   (C5_block_ranges twoBlockLog [1, 6] [4, 6] (by decide)).2.1⟩

/-- C6: when delimiting completes, starts and ends have the same length, both
are empty when no line begins with `"Iteration: "`, every pair satisfies
`start[i] ≤ end[i] < number of lines`, the slice `data[start[i] : end[i]+1]`
exists and is not empty, and `Load` on a readable source does not panic. -/
theorem C6_ranges_within_bounds (data : List String) (b e : List Nat)
    (h : getLimIter data = some (b, e)) :
    b.length = e.length ∧
    ((∀ l ∈ data, HasPrefix l "Iteration: " = false) → b = [] ∧ e = []) ∧
    (∀ (i : Nat) (hb : i < b.length) (he : i < e.length),
      b[i] ≤ e[i] ∧ e[i] < data.length ∧
      ∃ block, slice data b[i] (e[i] + 1) = some block ∧ block ≠ [] ∧
        block.length = e[i] - b[i] + 1) ∧
    ∀ {F : Type} (ops : FloatOps F) (info : FullInfo F),
      (FullInfo.Load ops info (data, none)).isSome = true := by
  obtain ⟨hb, hlen, hblk⟩ := getLimIter_spec h
  have hbnd : ∀ (i : Nat) (hb : i < b.length) (he : i < e.length),
      b[i] ≤ e[i] ∧ e[i] < data.length := by
    intro i hib hie
    have := getLimIter_bounds h (i := i) (s := b[i]) (t := e[i]) (by simp [hib]) (by simp [hie])
    omega
  refine ⟨hlen.symm, ?_, ?_, ?_⟩
  · intro hno
    have hz : b.length = 0 := by
      rw [hb, iterationLines_length, List.countP_eq_zero]
      simpa using hno
    exact ⟨List.length_eq_zero.mp hz, List.length_eq_zero.mp (by omega)⟩
  · intro i hib hie
    obtain ⟨h1, h2⟩ := hbnd i hib hie
    refine ⟨h1, h2, (data.take (e[i] + 1)).drop b[i], ?_, ?_, ?_⟩
    · simp only [slice]
      rw [if_pos ⟨by omega, by omega⟩]
    · intro hnil
      have := congrArg List.length hnil
      simp at this
      omega
    · simp
      omega
  · intro F ops info
    unfold FullInfo.Load
    simp only [h]
    have hsome := loadLoop_isSome ops data e b 0 ([] : List (IterInfo F)) (by
      intro k s hs
      obtain ⟨hkb, hkv⟩ := List.getElem?_eq_some_iff.mp hs
      have hke : k < e.length := by omega
      refine ⟨e[k], by simp [hke], ?_, ?_⟩
      · have := (hbnd k hkb hke).1
        omega
      · have := (hbnd k hkb hke).2
        omega)
    cases hl : loadLoop ops data e b 0 ([] : List (IterInfo F)) with
    | none => rw [hl] at hsome; exact absurd hsome (by simp)
    | some its => simp

/-- Witness for C6: the ranges of the two-block log are within its 8 lines. -/
theorem C6_ranges_within_bounds_witness :
    getLimIter twoBlockLog = some ([1, 6], [4, 6]) ∧
    ([1, 6].length = [4, 6].length ∧
      (FullInfo.Load decimalOps { Iterations := [] } (twoBlockLog, none)).isSome = true) :=
  ⟨by decide,
   (C6_ranges_within_bounds twoBlockLog [1, 6] [4, 6] (by decide)).1,
   (C6_ranges_within_bounds twoBlockLog [1, 6] [4, 6] (by decide)).2.2.2 decimalOps _⟩

/-! ## Dispatch of a line by its prefix -/

theorem hasPrefix_iff {s p : String} : HasPrefix s p = true ↔ ∃ t, s.data = p.data ++ t := by
  unfold HasPrefix
  rw [List.isPrefixOf_iff_prefix]
  constructor
  · rintro ⟨t, ht⟩; exact ⟨t, ht.symm⟩
  · rintro ⟨t, ht⟩; exact ⟨t, ht.symm⟩

/-- Two markers that differ in their first character cannot both begin a line. -/
theorem hasPrefix_exclusive {s p q : String} {c d : Char} {p' q' : List Char}
    (h : HasPrefix s p = true) (hp : p.data = c :: p') (hq : q.data = d :: q') (hcd : c ≠ d) :
    HasPrefix s q = false := by
  by_contra hc
  have hq2 : HasPrefix s q = true := by simpa using hc
  obtain ⟨t, ht⟩ := hasPrefix_iff.mp h
  obtain ⟨u, hu⟩ := hasPrefix_iff.mp hq2
  rw [hp] at ht
  rw [hq, ht] at hu
  simp at hu
  exact hcd hu.1

/-- A line that begins with a longer marker begins with each of its prefixes. -/
theorem hasPrefix_trans {s p q : String} (h : HasPrefix s p = true) (hq : HasPrefix p q = true) :
    HasPrefix s q = true := by
  obtain ⟨t, ht⟩ := hasPrefix_iff.mp h
  obtain ⟨u, hu⟩ := hasPrefix_iff.mp hq
  exact hasPrefix_iff.mpr ⟨u ++ t, by rw [ht, hu, List.append_assoc]⟩

theorem containsAux_append (sub : List Char) :
    ∀ (a t : List Char), containsAux sub a = true → containsAux sub (a ++ t) = true := by
  intro a
  induction a with
  | nil =>
    intro t h
    have hs : sub = [] := by simpa [containsAux] using h
    subst hs
    cases t <;> simp [containsAux]
  | cons c cs ih =>
    intro t h
    simp only [containsAux, Bool.or_eq_true] at h
    simp only [List.cons_append, containsAux, Bool.or_eq_true]
    rcases h with h | h
    · left
      rw [List.isPrefixOf_iff_prefix] at h ⊢
      exact h.trans (List.prefix_append (c :: cs) t)
    · right
      exact ih t h

/-- A line that begins with a marker containing a colon contains a colon. -/
theorem contains_of_hasPrefix {s p sub : String} (h : HasPrefix s p = true)
    (hp : Contains p sub = true) : Contains s sub = true := by
  obtain ⟨t, ht⟩ := hasPrefix_iff.mp h
  unfold Contains at hp ⊢
  rw [ht]
  exact containsAux_append _ _ _ hp

theorem not_noColon {line : String} (hc : Contains line ":" = true) :
    ¬ ((!Contains line ":") = true) := by
  rw [hc]; decide

theorem parseLine_iteration {F : Type} (ops : FloatOps F) (it : IterInfo F) (line : String)
    (h : HasPrefix line "Iteration:" = true) :
    parseLine ops it line = { it with Number := intOrNegOne (getDataAfterColon line) } := by
  have hc : Contains line ":" = true := contains_of_hasPrefix h (by decide)
  unfold parseLine
  rw [if_neg (not_noColon hc), if_pos h]

theorem parseLine_objective {F : Type} (ops : FloatOps F) (it : IterInfo F) (line : String)
    (h : HasPrefix line "Objective:" = true) :
    parseLine ops it line =
      { it with Objective := floatOrNegOne ops (getDataAfterColon line) } := by
  have hc : Contains line ":" = true := contains_of_hasPrefix h (by decide)
  have h1 : HasPrefix line "Iteration:" = false :=
    hasPrefix_exclusive h (c := 'O') (d := 'I') rfl rfl (by decide)
  unfold parseLine
  rw [if_neg (not_noColon hc), if_neg ((Bool.not_eq_true _).mpr h1), if_pos h]

theorem parseLine_eigenvalue {F : Type} (ops : FloatOps F) (it : IterInfo F) (line : String)
    (h : HasPrefix line "Eigenvalue" = true) (hc : Contains line ":" = true) :
    parseLine ops it line =
      { it with Eigenvalues :=
          it.Eigenvalues ++ [floatOrNegOne ops (getDataAfterColon line)] } := by
  have h1 : HasPrefix line "Iteration:" = false :=
    hasPrefix_exclusive h (c := 'E') (d := 'I') rfl rfl (by decide)
  have h2 : HasPrefix line "Objective:" = false :=
    hasPrefix_exclusive h (c := 'E') (d := 'O') rfl rfl (by decide)
  unfold parseLine
  rw [if_neg (not_noColon hc), if_neg ((Bool.not_eq_true _).mpr h1),
    if_neg ((Bool.not_eq_true _).mpr h2), if_pos h]

theorem parseLine_volume {F : Type} (ops : FloatOps F) (it : IterInfo F) (line : String)
    (h : HasPrefix line "Volume constraint:" = true) :
    parseLine ops it line =
      { it with VolumeConstrain := floatOrNegOne ops (getDataAfterColon line) } := by
  have hc : Contains line ":" = true := contains_of_hasPrefix h (by decide)
  have h1 : HasPrefix line "Iteration:" = false :=
    hasPrefix_exclusive h (c := 'V') (d := 'I') rfl rfl (by decide)
  have h2 : HasPrefix line "Objective:" = false :=
    hasPrefix_exclusive h (c := 'V') (d := 'O') rfl rfl (by decide)
  have h3 : HasPrefix line "Eigenvalue" = false :=
    hasPrefix_exclusive h (c := 'V') (d := 'E') rfl rfl (by decide)
  unfold parseLine
  rw [if_neg (not_noColon hc), if_neg ((Bool.not_eq_true _).mpr h1),
    if_neg ((Bool.not_eq_true _).mpr h2), if_neg ((Bool.not_eq_true _).mpr h3), if_pos h]

theorem parseLine_design {F : Type} (ops : FloatOps F) (it : IterInfo F) (line : String)
    (h : HasPrefix line "Design change:" = true) :
    parseLine ops it line =
      { it with DesignChange := floatOrNegOne ops (getDataAfterColon line) } := by
  have hc : Contains line ":" = true := contains_of_hasPrefix h (by decide)
  have h1 : HasPrefix line "Iteration:" = false :=
    hasPrefix_exclusive h (c := 'D') (d := 'I') rfl rfl (by decide)
  have h2 : HasPrefix line "Objective:" = false :=
    hasPrefix_exclusive h (c := 'D') (d := 'O') rfl rfl (by decide)
  have h3 : HasPrefix line "Eigenvalue" = false :=
    hasPrefix_exclusive h (c := 'D') (d := 'E') rfl rfl (by decide)
  have h4 : HasPrefix line "Volume constraint:" = false :=
    hasPrefix_exclusive h (c := 'D') (d := 'V') rfl rfl (by decide)
  unfold parseLine
  rw [if_neg (not_noColon hc), if_neg ((Bool.not_eq_true _).mpr h1),
    if_neg ((Bool.not_eq_true _).mpr h2), if_neg ((Bool.not_eq_true _).mpr h3),
    if_neg ((Bool.not_eq_true _).mpr h4), if_pos h]

theorem parseLine_preparing {F : Type} (ops : FloatOps F) (it : IterInfo F) (line : String)
    (h : HasPrefix line "Preparing:" = true) :
    parseLine ops it line =
      { it with PreparingTime := timeOrZero (getDataAfterColon line) } := by
  have hc : Contains line ":" = true := contains_of_hasPrefix h (by decide)
  have h1 : HasPrefix line "Iteration:" = false :=
    hasPrefix_exclusive h (c := 'P') (d := 'I') rfl rfl (by decide)
  have h2 : HasPrefix line "Objective:" = false :=
    hasPrefix_exclusive h (c := 'P') (d := 'O') rfl rfl (by decide)
  have h3 : HasPrefix line "Eigenvalue" = false :=
    hasPrefix_exclusive h (c := 'P') (d := 'E') rfl rfl (by decide)
  have h4 : HasPrefix line "Volume constraint:" = false :=
    hasPrefix_exclusive h (c := 'P') (d := 'V') rfl rfl (by decide)
  have h5 : HasPrefix line "Design change:" = false :=
    hasPrefix_exclusive h (c := 'P') (d := 'D') rfl rfl (by decide)
  unfold parseLine
  rw [if_neg (not_noColon hc), if_neg ((Bool.not_eq_true _).mpr h1),
    if_neg ((Bool.not_eq_true _).mpr h2), if_neg ((Bool.not_eq_true _).mpr h3),
    if_neg ((Bool.not_eq_true _).mpr h4), if_neg ((Bool.not_eq_true _).mpr h5), if_pos h]

theorem parseLine_solving {F : Type} (ops : FloatOps F) (it : IterInfo F) (line : String)
    (h : HasPrefix line "Solving:" = true) :
    parseLine ops it line =
      { it with SolvingTime := timeOrZero (getDataAfterColon line) } := by
  have hc : Contains line ":" = true := contains_of_hasPrefix h (by decide)
  have h1 : HasPrefix line "Iteration:" = false :=
    hasPrefix_exclusive h (c := 'S') (d := 'I') rfl rfl (by decide)
  have h2 : HasPrefix line "Objective:" = false :=
    hasPrefix_exclusive h (c := 'S') (d := 'O') rfl rfl (by decide)
  have h3 : HasPrefix line "Eigenvalue" = false :=
    hasPrefix_exclusive h (c := 'S') (d := 'E') rfl rfl (by decide)
  have h4 : HasPrefix line "Volume constraint:" = false :=
    hasPrefix_exclusive h (c := 'S') (d := 'V') rfl rfl (by decide)
  have h5 : HasPrefix line "Design change:" = false :=
    hasPrefix_exclusive h (c := 'S') (d := 'D') rfl rfl (by decide)
  have h6 : HasPrefix line "Preparing:" = false :=
    hasPrefix_exclusive h (c := 'S') (d := 'P') rfl rfl (by decide)
  unfold parseLine
  rw [if_neg (not_noColon hc), if_neg ((Bool.not_eq_true _).mpr h1),
    if_neg ((Bool.not_eq_true _).mpr h2), if_neg ((Bool.not_eq_true _).mpr h3),
    if_neg ((Bool.not_eq_true _).mpr h4), if_neg ((Bool.not_eq_true _).mpr h5),
    if_neg ((Bool.not_eq_true _).mpr h6), if_pos h]

theorem parseLine_noColon {F : Type} (ops : FloatOps F) (it : IterInfo F) (line : String)
    (hc : Contains line ":" = false) : parseLine ops it line = it := by
  unfold parseLine
  rw [if_pos (by rw [hc]; decide)]

theorem parseLine_unrecognized {F : Type} (ops : FloatOps F) (it : IterInfo F) (line : String)
    (h1 : HasPrefix line "Iteration:" = false) (h2 : HasPrefix line "Objective:" = false)
    (h3 : HasPrefix line "Eigenvalue" = false)
    (h4 : HasPrefix line "Volume constraint:" = false)
    (h5 : HasPrefix line "Design change:" = false) (h6 : HasPrefix line "Preparing:" = false)
    (h7 : HasPrefix line "Solving:" = false) : parseLine ops it line = it := by
  unfold parseLine
  rw [if_neg ((Bool.not_eq_true _).mpr h1),
    if_neg ((Bool.not_eq_true _).mpr h2), if_neg ((Bool.not_eq_true _).mpr h3),
    if_neg ((Bool.not_eq_true _).mpr h4), if_neg ((Bool.not_eq_true _).mpr h5),
    if_neg ((Bool.not_eq_true _).mpr h6), if_neg ((Bool.not_eq_true _).mpr h7)]
  simp only [ite_self]

/-- The effect of a line on the record depends on the line alone: it leaves
the record unchanged or it updates the one field selected by its prefix. -/
theorem parseLine_cases {F : Type} (ops : FloatOps F) (line : String) :
    (∀ it : IterInfo F, parseLine ops it line = it) ∨
    (HasPrefix line "Iteration:" = true ∧ ∀ it : IterInfo F, parseLine ops it line =
      { it with Number := intOrNegOne (getDataAfterColon line) }) ∨
    (HasPrefix line "Objective:" = true ∧ ∀ it : IterInfo F, parseLine ops it line =
      { it with Objective := floatOrNegOne ops (getDataAfterColon line) }) ∨
    (HasPrefix line "Eigenvalue" = true ∧ ∀ it : IterInfo F, parseLine ops it line =
      { it with Eigenvalues :=
          it.Eigenvalues ++ [floatOrNegOne ops (getDataAfterColon line)] }) ∨
    (HasPrefix line "Volume constraint:" = true ∧ ∀ it : IterInfo F, parseLine ops it line =
      { it with VolumeConstrain := floatOrNegOne ops (getDataAfterColon line) }) ∨
    (HasPrefix line "Design change:" = true ∧ ∀ it : IterInfo F, parseLine ops it line =
      { it with DesignChange := floatOrNegOne ops (getDataAfterColon line) }) ∨
    (HasPrefix line "Preparing:" = true ∧ ∀ it : IterInfo F, parseLine ops it line =
      { it with PreparingTime := timeOrZero (getDataAfterColon line) }) ∨
    (HasPrefix line "Solving:" = true ∧ ∀ it : IterInfo F, parseLine ops it line =
      { it with SolvingTime := timeOrZero (getDataAfterColon line) }) := by
  cases hc : Contains line ":" with
  | false => exact Or.inl (fun it => parseLine_noColon ops it line hc)
  | true =>
  cases h1 : HasPrefix line "Iteration:" with
  | true => exact Or.inr (Or.inl ⟨rfl, fun it => parseLine_iteration ops it line h1⟩)
  | false =>
  cases h2 : HasPrefix line "Objective:" with
  | true => exact Or.inr (Or.inr (Or.inl ⟨rfl, fun it => parseLine_objective ops it line h2⟩))
  | false =>
  cases h3 : HasPrefix line "Eigenvalue" with
  | true =>
    exact Or.inr (Or.inr (Or.inr (Or.inl ⟨rfl, fun it => parseLine_eigenvalue ops it line h3 hc⟩)))
  | false =>
  cases h4 : HasPrefix line "Volume constraint:" with
  | true =>
    exact Or.inr (Or.inr (Or.inr (Or.inr (Or.inl
      ⟨rfl, fun it => parseLine_volume ops it line h4⟩))))
  | false =>
  cases h5 : HasPrefix line "Design change:" with
  | true =>
    exact Or.inr (Or.inr (Or.inr (Or.inr (Or.inr (Or.inl
      ⟨rfl, fun it => parseLine_design ops it line h5⟩)))))
  | false =>
  cases h6 : HasPrefix line "Preparing:" with
  | true =>
    exact Or.inr (Or.inr (Or.inr (Or.inr (Or.inr (Or.inr (Or.inl
      ⟨rfl, fun it => parseLine_preparing ops it line h6⟩))))))
  | false =>
  cases h7 : HasPrefix line "Solving:" with
  | true =>
    exact Or.inr (Or.inr (Or.inr (Or.inr (Or.inr (Or.inr (Or.inr
      ⟨rfl, fun it => parseLine_solving ops it line h7⟩))))))
  | false =>
    exact Or.inl (fun it => parseLine_unrecognized ops it line h1 h2 h3 h4 h5 h6 h7)

theorem floatOrNegOne_of_some {F : Type} {ops : FloatOps F} {val : String} {v : F}
    (h : ops.ParseFloat val = some v) : floatOrNegOne ops val = v := by
  simp [floatOrNegOne, h]

theorem floatOrNegOne_of_none {F : Type} {ops : FloatOps F} {val : String}
    (h : ops.ParseFloat val = none) : floatOrNegOne ops val = ops.negOne := by
  simp [floatOrNegOne, h]

/-! ## Claims on the record parser -/

theorem exampleBlock_values :
    intOrNegOne (getDataAfterColon "Iteration: 3") = 3 ∧
    getDataAfterColon "Objective: 1.25" = "1.25" ∧
    getDataAfterColon "Eigenvalue 1: 0.5" = "0.5" ∧
    getDataAfterColon "Eigenvalue 2: 0.7" = "0.7" ∧
    getDataAfterColon "Volume constraint: 0.01" = "0.01" ∧
    getDataAfterColon "Design change: 0.002" = "0.002" := by
  decide

theorem exampleBlock_times :
    timeOrZero (getDataAfterColon "Preparing: 1 seconds 500 milliseconds") = 1500000000 ∧
    timeOrZero (getDataAfterColon "Solving: 2 seconds") = 0 := by
  decide

theorem exampleBlock_prefixes :
    HasPrefix "Iteration: 3" "Iteration:" = true ∧
    HasPrefix "Objective: 1.25" "Objective:" = true ∧
    (HasPrefix "Eigenvalue 1: 0.5" "Eigenvalue" = true ∧
      Contains "Eigenvalue 1: 0.5" ":" = true) ∧
    (HasPrefix "Eigenvalue 2: 0.7" "Eigenvalue" = true ∧
      Contains "Eigenvalue 2: 0.7" ":" = true) ∧
    HasPrefix "Volume constraint: 0.01" "Volume constraint:" = true ∧
    HasPrefix "Preparing: 1 seconds 500 milliseconds" "Preparing:" = true ∧
    HasPrefix "Solving: 2 seconds" "Solving:" = true ∧
    HasPrefix "Design change: 0.002" "Design change:" = true := by
  decide

theorem exampleBlock_delimited :
    getLimIter exampleBlock = some ([0], [7]) ∧
    slice exampleBlock 0 (7 + 1) = some exampleBlock := by
  decide

/-- The record parsed from the example block, for any floats. -/
theorem exampleBlock_parse {F : Type} (ops : FloatOps F) :
    IterInfo.Parse ops (IterInfo.fresh ops) exampleBlock =
      { Number := 3, PreparingTime := 1500000000, SolvingTime := 0,
        Eigenvalues := [floatOrNegOne ops "0.5", floatOrNegOne ops "0.7"],
        Objective := floatOrNegOne ops "1.25", VolumeConstrain := floatOrNegOne ops "0.01",
        DesignChange := floatOrNegOne ops "0.002" } := by
  obtain ⟨p1, p2, ⟨p3, q3⟩, ⟨p4, q4⟩, p5, p6, p7, p8⟩ := exampleBlock_prefixes
  obtain ⟨a1, a2, a3, a4, a5, a8⟩ := exampleBlock_values
  obtain ⟨a6, a7⟩ := exampleBlock_times
  simp only [IterInfo.Parse, exampleBlock, List.foldl]
  rw [parseLine_iteration ops _ "Iteration: 3" p1,
    parseLine_objective ops _ "Objective: 1.25" p2,
    parseLine_eigenvalue ops _ "Eigenvalue 1: 0.5" p3 q3,
    parseLine_eigenvalue ops _ "Eigenvalue 2: 0.7" p4 q4,
    parseLine_volume ops _ "Volume constraint: 0.01" p5,
    parseLine_preparing ops _ "Preparing: 1 seconds 500 milliseconds" p6,
    parseLine_solving ops _ "Solving: 2 seconds" p7,
    parseLine_design ops _ "Design change: 0.002" p8]
  simp only [a1, a2, a3, a4, a5, a6, a7, a8, IterInfo.fresh, List.nil_append,
    List.cons_append]

/-- C3: delimiting the example block yields the single range `[0, 7]`, the
slice of that range is the whole block, and parsing it from a fresh record
gives `Number = 3`, `Objective = 1.25`, `Eigenvalues = [0.5, 0.7]`,
`VolumeConstrain = 0.01`, `PreparingTime = 1 500 000 000 ns` and
`DesignChange = 0.002`, the floats being the values `strconv.ParseFloat` gives
for these numerals. -/
theorem C3_example_block_record {F : Type} (ops : FloatOps F) (o e1 e2 v d : F)
    (ho : ops.ParseFloat "1.25" = some o) (h1 : ops.ParseFloat "0.5" = some e1)
    (h2 : ops.ParseFloat "0.7" = some e2) (hv : ops.ParseFloat "0.01" = some v)
    (hd : ops.ParseFloat "0.002" = some d) :
    getLimIter exampleBlock = some ([0], [7]) ∧
    slice exampleBlock 0 (7 + 1) = some exampleBlock ∧
    (IterInfo.Parse ops (IterInfo.fresh ops) exampleBlock).Number = 3 ∧
    (IterInfo.Parse ops (IterInfo.fresh ops) exampleBlock).Objective = o ∧
    (IterInfo.Parse ops (IterInfo.fresh ops) exampleBlock).Eigenvalues = [e1, e2] ∧
    (IterInfo.Parse ops (IterInfo.fresh ops) exampleBlock).VolumeConstrain = v ∧
    (IterInfo.Parse ops (IterInfo.fresh ops) exampleBlock).PreparingTime = 1500000000 ∧
    (IterInfo.Parse ops (IterInfo.fresh ops) exampleBlock).DesignChange = d := by
  refine ⟨exampleBlock_delimited.1, exampleBlock_delimited.2, ?_⟩
  rw [exampleBlock_parse ops, floatOrNegOne_of_some ho, floatOrNegOne_of_some h1,
    floatOrNegOne_of_some h2, floatOrNegOne_of_some hv, floatOrNegOne_of_some hd]
  exact ⟨rfl, rfl, rfl, rfl, rfl, rfl⟩

/-- Witness for C3: the reference floats read the five numerals of the block. -/
theorem C3_example_block_record_witness :
    decimalOps.ParseFloat "0.7" = some { mantissa := 7, scale := 1 } ∧
    (IterInfo.Parse decimalOps (IterInfo.fresh decimalOps) exampleBlock).Eigenvalues
      = [{ mantissa := 5, scale := 1 }, { mantissa := 7, scale := 1 }] :=
  ⟨by decide,
   (C3_example_block_record decimalOps { mantissa := 125, scale := 2 }
      { mantissa := 5, scale := 1 } { mantissa := 7, scale := 1 } { mantissa := 1, scale := 2 }
      { mantissa := 2, scale := 3 } (by decide) (by decide) (by decide) (by decide)
      (by decide)).2.2.2.2.1⟩

/-- C4 (the code departs from the claim): the text `"2 seconds"` left by
`getDataAfterColon` has no blank after `seconds`, so the replacement of
`" seconds "` does not apply, `time.ParseDuration` rejects the text, and the
line `"Solving: 2 seconds"` sets `SolvingTime` to 0 instead of 2 s; the same
holds for `"Preparing: 2 seconds"`. The text `"2s"` would give 2 s. -/
theorem C4_whole_seconds_parse_as_zero :
    getDataAfterColon "Solving: 2 seconds" = "2 seconds" ∧
    ReplaceAll (ReplaceAll "2 seconds" " seconds " "s") " milliseconds" "ms" = "2 seconds" ∧
    getTime "2 seconds" = none ∧
    (IterInfo.Parse decimalOps (IterInfo.fresh decimalOps) ["Solving: 2 seconds"]).SolvingTime
      = 0 ∧
    (IterInfo.Parse decimalOps (IterInfo.fresh decimalOps) ["Preparing: 2 seconds"]).PreparingTime
      = 0 ∧
    (IterInfo.Parse decimalOps (IterInfo.fresh decimalOps) exampleBlock).SolvingTime = 0 ∧
    ParseDuration "2s" = some 2000000000 := by
  decide

/-! ## Frame properties of the record parser -/

theorem parse_append {F : Type} (ops : FloatOps F) (it : IterInfo F) (xs ys : List String) :
    IterInfo.Parse ops it (xs ++ ys) = IterInfo.Parse ops (IterInfo.Parse ops it xs) ys := by
  simp [IterInfo.Parse, List.foldl_append]

theorem parse_cons {F : Type} (ops : FloatOps F) (it : IterInfo F) (x : String)
    (xs : List String) :
    IterInfo.Parse ops it (x :: xs) = IterInfo.Parse ops (parseLine ops it x) xs := rfl

theorem parse_nil {F : Type} (ops : FloatOps F) (it : IterInfo F) :
    IterInfo.Parse ops it [] = it := rfl

theorem parseLine_agreeExceptObjective {F : Type} (ops : FloatOps F) {a b : IterInfo F}
    (h : AgreeExceptObjective a b) (l : String) :
    AgreeExceptObjective (parseLine ops a l) (parseLine ops b l) := by
  obtain ⟨h1, h2, h3, h4, h5, h6⟩ := h
  rcases parseLine_cases ops l with c | ⟨-, c⟩ | ⟨-, c⟩ | ⟨-, c⟩ | ⟨-, c⟩ | ⟨-, c⟩ | ⟨-, c⟩ | ⟨-, c⟩ <;>
    (rw [c a, c b]
     first
      | exact ⟨h1, h2, h3, h4, h5, h6⟩
      | exact ⟨rfl, h2, h3, h4, h5, h6⟩
      | exact ⟨h1, rfl, h3, h4, h5, h6⟩
      | exact ⟨h1, h2, rfl, h4, h5, h6⟩
      | exact ⟨h1, h2, h3, congrArg (· ++ _) h4, h5, h6⟩
      | exact ⟨h1, h2, h3, h4, rfl, h6⟩
      | exact ⟨h1, h2, h3, h4, h5, rfl⟩)

theorem parseLine_agreeExceptVolume {F : Type} (ops : FloatOps F) {a b : IterInfo F}
    (h : AgreeExceptVolume a b) (l : String) :
    AgreeExceptVolume (parseLine ops a l) (parseLine ops b l) := by
  obtain ⟨h1, h2, h3, h4, h5, h6⟩ := h
  rcases parseLine_cases ops l with c | ⟨-, c⟩ | ⟨-, c⟩ | ⟨-, c⟩ | ⟨-, c⟩ | ⟨-, c⟩ | ⟨-, c⟩ | ⟨-, c⟩ <;>
    (rw [c a, c b]
     first
      | exact ⟨h1, h2, h3, h4, h5, h6⟩
      | exact ⟨rfl, h2, h3, h4, h5, h6⟩
      | exact ⟨h1, rfl, h3, h4, h5, h6⟩
      | exact ⟨h1, h2, rfl, h4, h5, h6⟩
      | exact ⟨h1, h2, h3, congrArg (· ++ _) h4, h5, h6⟩
      | exact ⟨h1, h2, h3, h4, rfl, h6⟩
      | exact ⟨h1, h2, h3, h4, h5, rfl⟩)

theorem parseLine_agreeExceptDesign {F : Type} (ops : FloatOps F) {a b : IterInfo F}
    (h : AgreeExceptDesign a b) (l : String) :
    AgreeExceptDesign (parseLine ops a l) (parseLine ops b l) := by
  obtain ⟨h1, h2, h3, h4, h5, h6⟩ := h
  rcases parseLine_cases ops l with c | ⟨-, c⟩ | ⟨-, c⟩ | ⟨-, c⟩ | ⟨-, c⟩ | ⟨-, c⟩ | ⟨-, c⟩ | ⟨-, c⟩ <;>
    (rw [c a, c b]
     first
      | exact ⟨h1, h2, h3, h4, h5, h6⟩
      | exact ⟨rfl, h2, h3, h4, h5, h6⟩
      | exact ⟨h1, rfl, h3, h4, h5, h6⟩
      | exact ⟨h1, h2, rfl, h4, h5, h6⟩
      | exact ⟨h1, h2, h3, congrArg (· ++ _) h4, h5, h6⟩
      | exact ⟨h1, h2, h3, h4, rfl, h6⟩
      | exact ⟨h1, h2, h3, h4, h5, rfl⟩)

theorem parse_agreeExceptObjective {F : Type} (ops : FloatOps F) (xs : List String) :
    ∀ {a b : IterInfo F}, AgreeExceptObjective a b →
      AgreeExceptObjective (IterInfo.Parse ops a xs) (IterInfo.Parse ops b xs) := by
  induction xs with
  | nil => intro a b h; exact h
  | cons x xs ih => intro a b h; exact ih (parseLine_agreeExceptObjective ops h x)

theorem parse_agreeExceptVolume {F : Type} (ops : FloatOps F) (xs : List String) :
    ∀ {a b : IterInfo F}, AgreeExceptVolume a b →
      AgreeExceptVolume (IterInfo.Parse ops a xs) (IterInfo.Parse ops b xs) := by
  induction xs with
  | nil => intro a b h; exact h
  | cons x xs ih => intro a b h; exact ih (parseLine_agreeExceptVolume ops h x)

theorem parse_agreeExceptDesign {F : Type} (ops : FloatOps F) (xs : List String) :
    ∀ {a b : IterInfo F}, AgreeExceptDesign a b →
      AgreeExceptDesign (IterInfo.Parse ops a xs) (IterInfo.Parse ops b xs) := by
  induction xs with
  | nil => intro a b h; exact h
  | cons x xs ih => intro a b h; exact ih (parseLine_agreeExceptDesign ops h x)

theorem parseLine_number_of_not_iteration {F : Type} (ops : FloatOps F) (a : IterInfo F)
    {l : String} (h : HasPrefix l "Iteration:" = false) :
    (parseLine ops a l).Number = a.Number := by
  rcases parseLine_cases ops l with c | ⟨p, c⟩ | ⟨p, c⟩ | ⟨p, c⟩ | ⟨p, c⟩ | ⟨p, c⟩ | ⟨p, c⟩ | ⟨p, c⟩ <;>
    first
      | (rw [c a]; done)
      | (rw [h] at p; exact absurd p (by decide))

theorem parseLine_objective_of_not_objective {F : Type} (ops : FloatOps F) (a : IterInfo F)
    {l : String} (h : HasPrefix l "Objective:" = false) :
    (parseLine ops a l).Objective = a.Objective := by
  rcases parseLine_cases ops l with c | ⟨p, c⟩ | ⟨p, c⟩ | ⟨p, c⟩ | ⟨p, c⟩ | ⟨p, c⟩ | ⟨p, c⟩ | ⟨p, c⟩ <;>
    first
      | (rw [c a]; done)
      | (rw [h] at p; exact absurd p (by decide))

theorem parseLine_volume_of_not_volume {F : Type} (ops : FloatOps F) (a : IterInfo F)
    {l : String} (h : HasPrefix l "Volume constraint:" = false) :
    (parseLine ops a l).VolumeConstrain = a.VolumeConstrain := by
  rcases parseLine_cases ops l with c | ⟨p, c⟩ | ⟨p, c⟩ | ⟨p, c⟩ | ⟨p, c⟩ | ⟨p, c⟩ | ⟨p, c⟩ | ⟨p, c⟩ <;>
    first
      | (rw [c a]; done)
      | (rw [h] at p; exact absurd p (by decide))

theorem parseLine_design_of_not_design {F : Type} (ops : FloatOps F) (a : IterInfo F)
    {l : String} (h : HasPrefix l "Design change:" = false) :
    (parseLine ops a l).DesignChange = a.DesignChange := by
  rcases parseLine_cases ops l with c | ⟨p, c⟩ | ⟨p, c⟩ | ⟨p, c⟩ | ⟨p, c⟩ | ⟨p, c⟩ | ⟨p, c⟩ | ⟨p, c⟩ <;>
    first
      | (rw [c a]; done)
      | (rw [h] at p; exact absurd p (by decide))

theorem parse_number_of_not_iteration {F : Type} (ops : FloatOps F) (xs : List String) :
    ∀ (a : IterInfo F), (∀ l ∈ xs, HasPrefix l "Iteration:" = false) →
      (IterInfo.Parse ops a xs).Number = a.Number := by
  induction xs with
  | nil => intro a _; rfl
  | cons x xs ih =>
    intro a h
    rw [parse_cons, ih _ (fun l hl => h l (List.mem_cons_of_mem _ hl)),
      parseLine_number_of_not_iteration ops a (h x (List.mem_cons_self _ _))]

theorem parse_objective_of_not_objective {F : Type} (ops : FloatOps F) (xs : List String) :
    ∀ (a : IterInfo F), (∀ l ∈ xs, HasPrefix l "Objective:" = false) →
      (IterInfo.Parse ops a xs).Objective = a.Objective := by
  induction xs with
  | nil => intro a _; rfl
  | cons x xs ih =>
    intro a h
    rw [parse_cons, ih _ (fun l hl => h l (List.mem_cons_of_mem _ hl)),
      parseLine_objective_of_not_objective ops a (h x (List.mem_cons_self _ _))]

theorem parse_volume_of_not_volume {F : Type} (ops : FloatOps F) (xs : List String) :
    ∀ (a : IterInfo F), (∀ l ∈ xs, HasPrefix l "Volume constraint:" = false) →
      (IterInfo.Parse ops a xs).VolumeConstrain = a.VolumeConstrain := by
  induction xs with
  | nil => intro a _; rfl
  | cons x xs ih =>
    intro a h
    rw [parse_cons, ih _ (fun l hl => h l (List.mem_cons_of_mem _ hl)),
      parseLine_volume_of_not_volume ops a (h x (List.mem_cons_self _ _))]

theorem parse_design_of_not_design {F : Type} (ops : FloatOps F) (xs : List String) :
    ∀ (a : IterInfo F), (∀ l ∈ xs, HasPrefix l "Design change:" = false) →
      (IterInfo.Parse ops a xs).DesignChange = a.DesignChange := by
  induction xs with
  | nil => intro a _; rfl
  | cons x xs ih =>
    intro a h
    rw [parse_cons, ih _ (fun l hl => h l (List.mem_cons_of_mem _ hl)),
      parseLine_design_of_not_design ops a (h x (List.mem_cons_self _ _))]

/-- C7: a line `"Objective:"`, `"Volume constraint:"` or `"Design change:"`
whose text after the last colon is not a valid float sets its field to `-1.0`
(the value of the field once the lines up to it are parsed, and the value in
the final record when no later line of the range has the same prefix); `Parse`
is total, so nothing is raised; and on every other field the final record
agrees with the record parsed from the range without that line. -/
theorem C7_unparsable_float_sets_minus_one {F : Type} (ops : FloatOps F) (it : IterInfo F)
    (pre post : List String) (line : String)
    (hbad : ops.ParseFloat (getDataAfterColon line) = none) :
    (HasPrefix line "Objective:" = true →
      (IterInfo.Parse ops it (pre ++ [line])).Objective = ops.negOne ∧
      ((∀ l ∈ post, HasPrefix l "Objective:" = false) →
        (IterInfo.Parse ops it (pre ++ line :: post)).Objective = ops.negOne) ∧
      AgreeExceptObjective (IterInfo.Parse ops it (pre ++ line :: post))
        (IterInfo.Parse ops it (pre ++ post))) ∧
    (HasPrefix line "Volume constraint:" = true →
      (IterInfo.Parse ops it (pre ++ [line])).VolumeConstrain = ops.negOne ∧
      ((∀ l ∈ post, HasPrefix l "Volume constraint:" = false) →
        (IterInfo.Parse ops it (pre ++ line :: post)).VolumeConstrain = ops.negOne) ∧
      AgreeExceptVolume (IterInfo.Parse ops it (pre ++ line :: post))
        (IterInfo.Parse ops it (pre ++ post))) ∧
    (HasPrefix line "Design change:" = true →
      (IterInfo.Parse ops it (pre ++ [line])).DesignChange = ops.negOne ∧
      ((∀ l ∈ post, HasPrefix l "Design change:" = false) →
        (IterInfo.Parse ops it (pre ++ line :: post)).DesignChange = ops.negOne) ∧
      AgreeExceptDesign (IterInfo.Parse ops it (pre ++ line :: post))
        (IterInfo.Parse ops it (pre ++ post))) := by
  refine ⟨?_, ?_, ?_⟩
  · intro h
    have hstep : ∀ a : IterInfo F, parseLine ops a line = { a with Objective := ops.negOne } := by
      intro a
      rw [parseLine_objective ops a line h, floatOrNegOne_of_none hbad]
    refine ⟨?_, ?_, ?_⟩
    · rw [parse_append, parse_cons, parse_nil, hstep]
    · intro hpost
      rw [parse_append, parse_cons, parse_objective_of_not_objective ops post _ hpost, hstep]
    · rw [parse_append, parse_cons, parse_append, hstep]
      exact parse_agreeExceptObjective ops post ⟨rfl, rfl, rfl, rfl, rfl, rfl⟩
  · intro h
    have hstep : ∀ a : IterInfo F,
        parseLine ops a line = { a with VolumeConstrain := ops.negOne } := by
      intro a
      rw [parseLine_volume ops a line h, floatOrNegOne_of_none hbad]
    refine ⟨?_, ?_, ?_⟩
    · rw [parse_append, parse_cons, parse_nil, hstep]
    · intro hpost
      rw [parse_append, parse_cons, parse_volume_of_not_volume ops post _ hpost, hstep]
    · rw [parse_append, parse_cons, parse_append, hstep]
      exact parse_agreeExceptVolume ops post ⟨rfl, rfl, rfl, rfl, rfl, rfl⟩
  · intro h
    have hstep : ∀ a : IterInfo F,
        parseLine ops a line = { a with DesignChange := ops.negOne } := by
      intro a
      rw [parseLine_design ops a line h, floatOrNegOne_of_none hbad]
    refine ⟨?_, ?_, ?_⟩
    · rw [parse_append, parse_cons, parse_nil, hstep]
    · intro hpost
      rw [parse_append, parse_cons, parse_design_of_not_design ops post _ hpost, hstep]
    · rw [parse_append, parse_cons, parse_append, hstep]
      exact parse_agreeExceptDesign ops post ⟨rfl, rfl, rfl, rfl, rfl, rfl⟩

/-- Witness for C7: in the block `Iteration: 3`, `Objective: N/A`,
`Design change: 0.002` the objective is `-1.0` and the other two lines are
parsed as without it. -/
theorem C7_unparsable_float_sets_minus_one_witness :
    decimalOps.ParseFloat (getDataAfterColon "Objective: N/A") = none ∧
    HasPrefix "Objective: N/A" "Objective:" = true ∧
    (IterInfo.Parse decimalOps (IterInfo.fresh decimalOps)
        (["Iteration: 3"] ++ "Objective: N/A" :: ["Design change: 0.002"])).Objective
      = decimalOps.negOne ∧
    AgreeExceptObjective
      (IterInfo.Parse decimalOps (IterInfo.fresh decimalOps)
        (["Iteration: 3"] ++ "Objective: N/A" :: ["Design change: 0.002"]))
      (IterInfo.Parse decimalOps (IterInfo.fresh decimalOps)
        (["Iteration: 3"] ++ ["Design change: 0.002"])) :=
  ⟨by decide, by decide,
   ((C7_unparsable_float_sets_minus_one decimalOps (IterInfo.fresh decimalOps) ["Iteration: 3"]
      ["Design change: 0.002"] "Objective: N/A" (by decide)).1 (by decide)).2.1 (by decide),
   ((C7_unparsable_float_sets_minus_one decimalOps (IterInfo.fresh decimalOps) ["Iteration: 3"]
      ["Design change: 0.002"] "Objective: N/A" (by decide)).1 (by decide)).2.2⟩

/-- A list with an element satisfying `p` splits at the last such element. -/
theorem exists_last_split {α : Type} (p : α → Bool) :
    ∀ xs : List α, (∃ x ∈ xs, p x = true) →
      ∃ pre l post, xs = pre ++ l :: post ∧ p l = true ∧ ∀ x ∈ post, p x = false := by
  intro xs
  induction xs with
  | nil => rintro ⟨x, hx, -⟩; exact absurd hx (List.not_mem_nil x)
  | cons a xs ih =>
    intro h
    by_cases hx : ∃ x ∈ xs, p x = true
    · obtain ⟨pre, l, post, he, hl, hpost⟩ := ih hx
      exact ⟨a :: pre, l, post, by rw [he]; rfl, hl, hpost⟩
    · have hall : ∀ x ∈ xs, p x = false := by
        intro x hxm
        cases hpx : p x with
        | false => rfl
        | true => exact absurd ⟨x, hxm, hpx⟩ hx
      obtain ⟨x, hxm, hpx⟩ := h
      rcases List.mem_cons.mp hxm with rfl | hxm
      · exact ⟨[], x, xs, rfl, hpx, hall⟩
      · rw [hall x hxm] at hpx
        exact absurd hpx (by decide)

/-- The first line of a delimited block is the Iteration line at its start. -/
theorem block_head {data : List String} {b e : List Nat}
    (h : getLimIter data = some (b, e)) {i s t : Nat} {block : List String}
    (hs : b[i]? = some s) (ht : e[i]? = some t)
    (hblock : slice data s (t + 1) = some block) :
    ∃ l rest, block = l :: rest ∧ data[s]? = some l ∧ HasPrefix l "Iteration: " = true := by
  obtain ⟨h1, h2, h3⟩ := getLimIter_bounds h hs ht
  have hsl : s < data.length := by omega
  have hmem : s ∈ iterationLines data := by
    rw [← (getLimIter_spec h).1]; exact List.getElem?_mem hs
  obtain ⟨-, l, hl, hp⟩ := mem_iterationLines hmem
  unfold slice at hblock
  rw [if_pos ⟨by omega, by omega⟩] at hblock
  simp only [Option.some.injEq] at hblock
  have hlt : s < (List.take (t + 1) data).length := by
    rw [List.length_take]; omega
  refine ⟨l, (List.take (t + 1) data).drop (s + 1), ?_, hl, hp⟩
  rw [← hblock, List.drop_eq_getElem_cons hlt]
  congr 1
  rw [List.getElem_take]
  obtain ⟨_, hv⟩ := List.getElem?_eq_some_iff.mp hl
  exact hv

/-- C8 (the claim as stated fails): the one-line log `"Iteration: -5"` is
delimited as the block `[0, 0]`, its text `"-5"` parses as an integer, and the
record gets the negative number `-5`; and for `"Iteration: -1"` the number is
`-1` although the text parses. -/
theorem C8_negative_iteration_number :
    getLimIter ["Iteration: -5"] = some ([0], [0]) ∧
    slice ["Iteration: -5"] 0 (0 + 1) = some ["Iteration: -5"] ∧
    Atoi (getDataAfterColon "Iteration: -5") = some (-5) ∧
    ¬ (0 ≤ (IterInfo.Parse decimalOps (IterInfo.fresh decimalOps) ["Iteration: -5"]).Number) ∧
    Atoi (getDataAfterColon "Iteration: -1") = some (-1) ∧
    (IterInfo.Parse decimalOps (IterInfo.fresh decimalOps) ["Iteration: -1"]).Number = -1 := by
  decide

/-- C8 (amended): every block delimited by `getLimIter` has a last line
beginning with `"Iteration:"`, and the number of the record parsed from the
block is read from that line: it is the integer written after the last colon
when that text parses as an integer, of whatever sign, and `-1` when it does
not; so the number is non-negative exactly when the text parses as a
non-negative integer. -/
theorem C8_number_from_last_iteration_line {F : Type} (ops : FloatOps F) (data : List String)
    (b e : List Nat) (h : getLimIter data = some (b, e)) (i : Nat) (hb : i < b.length)
    (he : i < e.length) (block : List String)
    (hblock : slice data b[i] (e[i] + 1) = some block) :
    ∃ pre l post, block = pre ++ l :: post ∧ HasPrefix l "Iteration:" = true ∧
      (∀ x ∈ post, HasPrefix x "Iteration:" = false) ∧
      (∀ n, Atoi (getDataAfterColon l) = some n →
        (IterInfo.Parse ops (IterInfo.fresh ops) block).Number = n) ∧
      (Atoi (getDataAfterColon l) = none →
        (IterInfo.Parse ops (IterInfo.fresh ops) block).Number = -1) ∧
      (0 ≤ (IterInfo.Parse ops (IterInfo.fresh ops) block).Number ↔
        ∃ n, Atoi (getDataAfterColon l) = some n ∧ 0 ≤ n) := by
  obtain ⟨l0, rest, hb0, -, hl0⟩ :=
    block_head h (i := i) (s := b[i]) (t := e[i]) (by simp [hb]) (by simp [he]) hblock
  have hl0' : HasPrefix l0 "Iteration:" = true := hasPrefix_trans hl0 (by decide)
  obtain ⟨pre, l, post, hsplit, hl, hpost⟩ :=
    exists_last_split (fun x => HasPrefix x "Iteration:") block
      ⟨l0, by rw [hb0]; exact List.mem_cons_self _ _, hl0'⟩
  have hnum : (IterInfo.Parse ops (IterInfo.fresh ops) block).Number
      = intOrNegOne (getDataAfterColon l) := by
    rw [hsplit, parse_append, parse_cons, parse_number_of_not_iteration ops post _ hpost,
      parseLine_iteration ops _ l hl]
  refine ⟨pre, l, post, hsplit, hl, hpost, ?_, ?_, ?_⟩
  · intro n hn
    rw [hnum, intOrNegOne, hn]
  · intro hn
    rw [hnum, intOrNegOne, hn]
  · rw [hnum, intOrNegOne]
    cases hn : Atoi (getDataAfterColon l) with
    | none => simp
    | some n => simp

/-- Witness for C8 (amended): the second block of the two-block log is the
line `"Iteration: 2"` alone, and its record has number 2. -/
theorem C8_number_from_last_iteration_line_witness :
    getLimIter twoBlockLog = some ([1, 6], [4, 6]) ∧
    slice twoBlockLog 6 (6 + 1) = some ["Iteration: 2"] ∧
    ∃ pre l post, ["Iteration: 2"] = pre ++ l :: post ∧ HasPrefix l "Iteration:" = true ∧
      (∀ x ∈ post, HasPrefix x "Iteration:" = false) ∧
      (∀ n, Atoi (getDataAfterColon l) = some n →
        (IterInfo.Parse decimalOps (IterInfo.fresh decimalOps) ["Iteration: 2"]).Number = n) ∧
      (Atoi (getDataAfterColon l) = none →
        (IterInfo.Parse decimalOps (IterInfo.fresh decimalOps) ["Iteration: 2"]).Number = -1) ∧
      (0 ≤ (IterInfo.Parse decimalOps (IterInfo.fresh decimalOps) ["Iteration: 2"]).Number ↔
        ∃ n, Atoi (getDataAfterColon l) = some n ∧ 0 ≤ n) :=
  ⟨by decide, by decide,
   C8_number_from_last_iteration_line decimalOps twoBlockLog [1, 6] [4, 6] (by decide) 1
     (by decide) (by decide) ["Iteration: 2"] (by decide)⟩

/-! ## The aggregator -/

theorem wrap64_range (x : Int) : -2 ^ 63 ≤ wrap64 x ∧ wrap64 x < 2 ^ 63 := by
  unfold wrap64
  omega

theorem wrap64_of_range {x : Int} (h1 : -2 ^ 63 ≤ x) (h2 : x < 2 ^ 63) : wrap64 x = x := by
  unfold wrap64
  omega

theorem wrap64_add_left (a c : Int) : wrap64 (wrap64 a + c) = wrap64 (a + c) := by
  unfold wrap64
  omega

theorem wrap64_add_right (a c : Int) : wrap64 (a + wrap64 c) = wrap64 (a + c) := by
  unfold wrap64
  omega

/-- A reduction with `sum` from a value in range is the wrapped exact sum. -/
theorem foldl_sum_eq {F : Type} (key : IterInfo F → Duration) (its : List (IterInfo F)) :
    ∀ a : Int, its.foldl (fun result it => sum result (key it)) (wrap64 a)
      = wrap64 (a + (its.map key).sum) := by
  induction its with
  | nil => intro a; simp
  | cons x xs ih =>
    intro a
    simp only [List.foldl_cons, List.map_cons, List.sum_cons]
    have hs : sum (wrap64 a) (key x) = wrap64 (wrap64 a + key x) := rfl
    rw [hs, ih (wrap64 a + key x), Int.add_assoc, wrap64_add_left]

theorem reduceIterations_sum {F : Type} (info : FullInfo F) (key : IterInfo F → Duration) :
    info.reduceIterations key sum = wrap64 ((info.Iterations.map key).sum) := by
  unfold FullInfo.reduceIterations
  have := foldl_sum_eq key info.Iterations 0
  simpa [wrap64] using this

theorem wrap64_sum_map_wrap64 {α : Type} (f : α → Int) (xs : List α) :
    wrap64 ((xs.map (fun x => wrap64 (f x))).sum) = wrap64 ((xs.map f).sum) := by
  induction xs with
  | nil => rfl
  | cons x xs ih =>
    simp only [List.map_cons, List.sum_cons]
    rw [wrap64_add_left, ← wrap64_add_right, ih, wrap64_add_right]

theorem totalTime_eq {F : Type} (info : FullInfo F) :
    info.TotalTime
      = wrap64 ((info.Iterations.map (fun it => it.PreparingTime + it.SolvingTime)).sum) := by
  unfold FullInfo.TotalTime
  rw [reduceIterations_sum]
  have h : (timeSolPrep : IterInfo F → Duration)
      = fun it => wrap64 (it.SolvingTime + it.PreparingTime) := rfl
  rw [h, wrap64_sum_map_wrap64]
  have h2 : (fun it : IterInfo F => it.SolvingTime + it.PreparingTime)
      = fun it => it.PreparingTime + it.SolvingTime := by
    funext it; exact Int.add_comm _ _
  rw [h2]

/-- C9 (the claim as stated fails): the log `longRunLog` loads into a report
of one iteration whose two durations are 2 562 047 h each; their sum exceeds
the `int64` range, and `TotalTime()` is negative, not the sum. -/
theorem C9_total_time_overflows :
    FullInfo.Load decimalOps { Iterations := [] } (longRunLog, none)
      = some (longRunReport, none) ∧
    (longRunReport.Iterations.map (fun it => it.PreparingTime + it.SolvingTime)).sum
      = 18446738400000000000 ∧
    longRunReport.TotalTime = -5673709551616 ∧
    longRunReport.TotalTime
      ≠ (longRunReport.Iterations.map (fun it => it.PreparingTime + it.SolvingTime)).sum := by
  decide

/-- C9 (amended): `TotalTime()`, `TotalTimePreparing()` and `TotalTimeSolving()`
are the sums over the iterations of `PreparingTime + SolvingTime`, of
`PreparingTime` and of `SolvingTime`, reduced to the `int64` range by
two's-complement wrap-around; each equals the exact sum whenever that sum is
within the `int64` range, and is 0 for the empty report. For the report of
(1 s, 2 s) and (0.5 s, 1.5 s), `TotalTime()` is 5 s and `AvgTime()` 2.5 s. -/
theorem C9_totals_are_wrapped_sums {F : Type} (info : FullInfo F) :
    (info.TotalTime
        = wrap64 ((info.Iterations.map (fun it => it.PreparingTime + it.SolvingTime)).sum) ∧
      info.TotalTimePreparing
        = wrap64 ((info.Iterations.map (fun it => it.PreparingTime)).sum) ∧
      info.TotalTimeSolving = wrap64 ((info.Iterations.map (fun it => it.SolvingTime)).sum)) ∧
    ((-2 ^ 63 ≤ (info.Iterations.map (fun it => it.PreparingTime + it.SolvingTime)).sum ∧
        (info.Iterations.map (fun it => it.PreparingTime + it.SolvingTime)).sum < 2 ^ 63 →
        info.TotalTime
          = (info.Iterations.map (fun it => it.PreparingTime + it.SolvingTime)).sum) ∧
      (-2 ^ 63 ≤ (info.Iterations.map (fun it => it.PreparingTime)).sum ∧
        (info.Iterations.map (fun it => it.PreparingTime)).sum < 2 ^ 63 →
        info.TotalTimePreparing = (info.Iterations.map (fun it => it.PreparingTime)).sum) ∧
      (-2 ^ 63 ≤ (info.Iterations.map (fun it => it.SolvingTime)).sum ∧
        (info.Iterations.map (fun it => it.SolvingTime)).sum < 2 ^ 63 →
        info.TotalTimeSolving = (info.Iterations.map (fun it => it.SolvingTime)).sum)) ∧
    (info.Iterations = [] →
      info.TotalTime = 0 ∧ info.TotalTimePreparing = 0 ∧ info.TotalTimeSolving = 0) ∧
    timingReport.TotalTime = 5000000000 ∧ timingReport.AvgTime = some 2500000000 := by
  have e1 := totalTime_eq info
  have e2 : info.TotalTimePreparing
      = wrap64 ((info.Iterations.map (fun it => it.PreparingTime)).sum) :=
    reduceIterations_sum info timePrep
  have e3 : info.TotalTimeSolving
      = wrap64 ((info.Iterations.map (fun it => it.SolvingTime)).sum) :=
    reduceIterations_sum info timeSol
  refine ⟨⟨e1, e2, e3⟩, ⟨?_, ?_, ?_⟩, ?_, by decide, by decide⟩
  · rintro ⟨h1, h2⟩
    rw [e1, wrap64_of_range h1 h2]
  · rintro ⟨h1, h2⟩
    rw [e2, wrap64_of_range h1 h2]
  · rintro ⟨h1, h2⟩
    rw [e3, wrap64_of_range h1 h2]
  · intro h
    simp [FullInfo.TotalTime, FullInfo.TotalTimePreparing, FullInfo.TotalTimeSolving,
      FullInfo.reduceIterations, h]

/-- Witness for C9 (amended): the sum of the timing example, 5 s, is within
the `int64` range and is its total time; the empty report has total 0. -/
theorem C9_totals_are_wrapped_sums_witness :
    (-2 ^ 63 ≤ (timingReport.Iterations.map (fun it => it.PreparingTime + it.SolvingTime)).sum ∧
      (timingReport.Iterations.map (fun it => it.PreparingTime + it.SolvingTime)).sum
        < 2 ^ 63) ∧
    timingReport.TotalTime
      = (timingReport.Iterations.map (fun it => it.PreparingTime + it.SolvingTime)).sum ∧
    ({ Iterations := [] } : FullInfo Decimal).TotalTime = 0 :=
  ⟨by decide, (C9_totals_are_wrapped_sums timingReport).2.1.1 (by decide),
   ((C9_totals_are_wrapped_sums ({ Iterations := [] } : FullInfo Decimal)).2.2.1 rfl).1⟩

theorem totalTime_range {F : Type} (info : FullInfo F) :
    -2 ^ 63 ≤ info.TotalTime ∧ info.TotalTime < 2 ^ 63 := by
  rw [totalTime_eq]
  exact wrap64_range _

theorem tdiv_range {a : Int} {n : Nat} (hn : 0 < n) (h1 : -2 ^ 63 ≤ a) (h2 : a < 2 ^ 63) :
    -2 ^ 63 ≤ Int.tdiv a n ∧ Int.tdiv a n < 2 ^ 63 := by
  have hn' : (0 : Int) < n := by exact_mod_cast hn
  rcases Int.le_total 0 a with ha | ha
  · rw [Int.tdiv_eq_ediv ha (Int.le_of_lt hn')]
    have h3 : 0 ≤ a / (n : Int) := Int.ediv_nonneg ha (Int.le_of_lt hn')
    have h4 : a / (n : Int) ≤ a := Int.ediv_le_self _ ha
    omega
  · have hna : 0 ≤ -a := by omega
    have e : Int.tdiv a n = -Int.tdiv (-a) n := by
      rw [Int.neg_tdiv, Int.neg_neg]
    rw [e, Int.tdiv_eq_ediv hna (Int.le_of_lt hn')]
    have h3 : 0 ≤ (-a) / (n : Int) := Int.ediv_nonneg hna (Int.le_of_lt hn')
    have h4 : (-a) / (n : Int) ≤ -a := Int.ediv_le_self _ hna
    omega

/-- C10: `AvgTime()` returns a duration exactly when the report has at least
one iteration; it is then `TotalTime()` divided by `NumberOfIter()` with the
quotient truncated toward zero, and for the empty report the division by the
zero count panics and no duration is returned. -/
theorem C10_avgTime {F : Type} (info : FullInfo F) :
    (0 < info.NumberOfIter →
      info.AvgTime = some (Int.tdiv info.TotalTime (info.NumberOfIter : Int))) ∧
    (info.NumberOfIter = 0 → info.AvgTime = none) ∧
    (info.AvgTime.isSome = true ↔ 0 < info.NumberOfIter) := by
  have hpos : 0 < info.NumberOfIter →
      info.AvgTime = some (Int.tdiv info.TotalTime (info.NumberOfIter : Int)) := by
    intro hn
    unfold FullInfo.AvgTime div64
    have hne : ¬ ((info.NumberOfIter : Int) = 0) := by omega
    rw [if_neg hne]
    obtain ⟨h1, h2⟩ := totalTime_range info
    obtain ⟨h3, h4⟩ := tdiv_range hn h1 h2
    rw [wrap64_of_range h3 h4]
  have hzero : info.NumberOfIter = 0 → info.AvgTime = none := by
    intro hn
    unfold FullInfo.AvgTime div64
    rw [hn]
    rfl
  refine ⟨hpos, hzero, ?_⟩
  constructor
  · intro hs
    by_contra hc
    have hn : info.NumberOfIter = 0 := by omega
    rw [hzero hn] at hs
    exact absurd hs (by decide)
  · intro hn
    rw [hpos hn]
    rfl

/-- Witness for C10: the timing example has two iterations and average 2.5 s,
the empty report has no average. -/
theorem C10_avgTime_witness :
    0 < timingReport.NumberOfIter ∧
    timingReport.AvgTime
      = some (Int.tdiv timingReport.TotalTime (timingReport.NumberOfIter : Int)) ∧
    ({ Iterations := [] } : FullInfo Decimal).AvgTime = none :=
  ⟨by decide, (C10_avgTime timingReport).1 (by decide),
   (C10_avgTime ({ Iterations := [] } : FullInfo Decimal)).2.1 rfl⟩

/-! ## Claims on the eigenvalues -/

theorem parseLine_eigenvalues_of_not {F : Type} (ops : FloatOps F) (a : IterInfo F)
    {l : String} (h : HasPrefix l "Eigenvalue" = false ∨ Contains l ":" = false) :
    (parseLine ops a l).Eigenvalues = a.Eigenvalues := by
  rcases h with h | h
  · rcases parseLine_cases ops l with c | ⟨p, c⟩ | ⟨p, c⟩ | ⟨p, c⟩ | ⟨p, c⟩ | ⟨p, c⟩ | ⟨p, c⟩ | ⟨p, c⟩ <;>
      first
        | (rw [c a]; done)
        | (rw [h] at p; exact absurd p (by decide))
  · rw [parseLine_noColon ops a l h]

/-- The eigenvalues after a range are those before it followed by one entry
for each line of the range that begins with `"Eigenvalue"` and has a colon. -/
theorem parse_eigenvalues {F : Type} (ops : FloatOps F) (data : List String) :
    ∀ it : IterInfo F,
      (IterInfo.Parse ops it data).Eigenvalues =
        it.Eigenvalues ++
          (data.filter (fun l => HasPrefix l "Eigenvalue" && Contains l ":")).map
            (fun l => floatOrNegOne ops (getDataAfterColon l)) := by
  induction data with
  | nil => intro it; simp [parse_nil]
  | cons l ls ih =>
    intro it
    rw [parse_cons, ih]
    cases hp : HasPrefix l "Eigenvalue" with
    | false =>
      rw [parseLine_eigenvalues_of_not ops it (Or.inl hp)]
      simp [List.filter_cons, hp]
    | true =>
      cases hc : Contains l ":" with
      | false =>
        rw [parseLine_eigenvalues_of_not ops it (Or.inr hc)]
        simp [List.filter_cons, hp, hc]
      | true =>
        rw [parseLine_eigenvalue ops it l hp hc]
        simp [List.filter_cons, hp, hc]

/-- C11: the eigenvalues of the record parsed from a fresh record are, in the
order of the lines, one entry for each line of the range that begins with
`"Eigenvalue"` and contains a colon; the entry is the float that
`strconv.ParseFloat` reads in the text after the last colon, and `-1.0` when it
returns an error, so that the number of entries is the number of such lines. -/
theorem C11_eigenvalues_one_per_line {F : Type} (ops : FloatOps F) (data : List String) :
    (IterInfo.Parse ops (IterInfo.fresh ops) data).Eigenvalues =
      (data.filter (fun l => HasPrefix l "Eigenvalue" && Contains l ":")).map
        (fun l => floatOrNegOne ops (getDataAfterColon l)) ∧
    (IterInfo.Parse ops (IterInfo.fresh ops) data).Eigenvalues.length =
      data.countP (fun l => HasPrefix l "Eigenvalue" && Contains l ":") ∧
    (∀ (val : String) (v : F), ops.ParseFloat val = some v → floatOrNegOne ops val = v) ∧
    (∀ val : String, ops.ParseFloat val = none → floatOrNegOne ops val = ops.negOne) := by
  have h := parse_eigenvalues ops data (IterInfo.fresh ops)
  have h0 : (IterInfo.fresh ops).Eigenvalues = [] := rfl
  rw [h0, List.nil_append] at h
  refine ⟨h, ?_, fun val v hv => floatOrNegOne_of_some hv, fun val hv => floatOrNegOne_of_none hv⟩
  rw [h, List.length_map, List.countP_eq_length_filter]

/-- Witness for C11: of the lines `Eigenvalue 1: 0.5`, `Eigenvalue`,
`Eigenvalue 2: x` the first gives `0.5`, the second, without a colon, gives no
entry, and the third gives `-1.0`. -/
theorem C11_eigenvalues_one_per_line_witness :
    decimalOps.ParseFloat "x" = none ∧
    floatOrNegOne decimalOps "x" = decimalOps.negOne ∧
    (IterInfo.Parse decimalOps (IterInfo.fresh decimalOps)
        ["Eigenvalue 1: 0.5", "Eigenvalue", "Eigenvalue 2: x"]).Eigenvalues
      = [{ mantissa := 5, scale := 1 }, { mantissa := -1, scale := 0 }] :=
  ⟨by decide,
   (C11_eigenvalues_one_per_line decimalOps []).2.2.2 "x" (by decide),
   by decide⟩

/-! ## The text after the last colon -/

theorem isPrefixOf_singleton (c x : Char) (xs : List Char) :
    List.isPrefixOf [c] (x :: xs) = (c == x) := by
  simp [List.isPrefixOf]

theorem containsAux_singleton (c : Char) :
    ∀ s : List Char, containsAux [c] s = true ↔ c ∈ s := by
  intro s
  induction s with
  | nil => simp [containsAux]
  | cons x xs ih =>
    unfold containsAux
    rw [isPrefixOf_singleton, Bool.or_eq_true, ih, List.mem_cons]
    simp

theorem contains_colon_iff (line : String) : Contains line ":" = true ↔ ':' ∈ line.data :=
  containsAux_singleton ':' line.data

/-- The scan of `LastIndex` for a one-character separator: without an
occurrence the previous match is kept, otherwise the result is the position of
the occurrence that no other follows. -/
theorem lastIndexAux_singleton (c : Char) :
    ∀ (s : List Char) (i : Nat) (acc : Int),
      (c ∉ s → lastIndexAux [c] s i acc = acc) ∧
      (c ∈ s → ∃ pre post, s = pre ++ c :: post ∧ c ∉ post ∧
        lastIndexAux [c] s i acc = ((i + pre.length : Nat) : Int)) := by
  intro s
  induction s with
  | nil =>
    intro i acc
    refine ⟨fun _ => by simp [lastIndexAux], fun h => absurd h (List.not_mem_nil c)⟩
  | cons x xs ih =>
    intro i acc
    unfold lastIndexAux
    rw [isPrefixOf_singleton]
    obtain ⟨ih1, ih2⟩ := ih (i + 1) (if (c == x) = true then (i : Int) else acc)
    constructor
    · intro hn
      have hx : ¬ c = x := fun h => hn (by rw [h]; exact List.mem_cons_self _ _)
      have hxs : c ∉ xs := fun h => hn (List.mem_cons_of_mem _ h)
      rw [ih1 hxs, if_neg (by simpa using hx)]
    · intro _
      by_cases hxs : c ∈ xs
      · obtain ⟨pre, post, hs, hpost, hres⟩ := ih2 hxs
        refine ⟨x :: pre, post, by rw [hs]; rfl, hpost, ?_⟩
        rw [hres]
        simp only [List.length_cons]
        congr 1
        omega
      · have hcx : c = x := by
          rename_i hmem
          rcases List.mem_cons.mp hmem with h | h
          · exact h
          · exact absurd h hxs
        refine ⟨[], xs, by rw [hcx]; rfl, hxs, ?_⟩
        rw [ih1 hxs, if_pos (by simpa using hcx)]
        simp

theorem dropWhile_head_not {α : Type} (p : α → Bool) :
    ∀ (l : List α) (c : α) (rest : List α), l.dropWhile p = c :: rest → p c = false := by
  intro l
  induction l with
  | nil => intro c rest h; exact absurd h (by simp)
  | cons x xs ih =>
    intro c rest h
    rw [List.dropWhile_cons] at h
    split at h
    · exact ih c rest h
    · rename_i hx
      simp only [List.cons.injEq] at h
      rw [← h.1]
      simpa using hx

/-- The three parts of a text cut by `strings.TrimSpace`: white space, the
result, white space; the result neither begins nor ends with white space. -/
theorem trimSpaceChars_spec (cs : List Char) :
    ∃ l r, cs = l ++ trimSpaceChars cs ++ r ∧
      (∀ c ∈ l, isSpace c = true) ∧ (∀ c ∈ r, isSpace c = true) ∧
      (∀ c, (trimSpaceChars cs).head? = some c → isSpace c = false) ∧
      (∀ c, (trimSpaceChars cs).getLast? = some c → isSpace c = false) := by
  have h1 := List.takeWhile_append_dropWhile isSpace cs
  have h2 := List.takeWhile_append_dropWhile isSpace (cs.dropWhile isSpace).reverse
  have hmid : cs.dropWhile isSpace =
      trimSpaceChars cs ++ ((cs.dropWhile isSpace).reverse.takeWhile isSpace).reverse := by
    have := congrArg List.reverse h2
    rw [List.reverse_append, List.reverse_reverse] at this
    exact this.symm
  have hlast : ∀ c, (trimSpaceChars cs).getLast? = some c → isSpace c = false := by
    intro c hc
    unfold trimSpaceChars at hc
    rw [List.getLast?_reverse] at hc
    cases hd : (cs.dropWhile isSpace).reverse.dropWhile isSpace with
    | nil => rw [hd] at hc; exact absurd hc (by simp)
    | cons y ys =>
      rw [hd] at hc
      simp only [List.head?_cons, Option.some.injEq] at hc
      rw [← hc]
      exact dropWhile_head_not isSpace _ y ys hd
  refine ⟨cs.takeWhile isSpace, ((cs.dropWhile isSpace).reverse.takeWhile isSpace).reverse,
    ?_, ?_, ?_, ?_, hlast⟩
  · rw [List.append_assoc, ← hmid, h1]
  · intro c hc
    exact List.mem_takeWhile_imp hc
  · intro c hc
    rw [List.mem_reverse] at hc
    exact List.mem_takeWhile_imp hc
  · intro c hc
    cases ht : trimSpaceChars cs with
    | nil => rw [ht] at hc; exact absurd hc (by simp)
    | cons y ys =>
      rw [ht] at hc hmid
      simp only [List.head?_cons, Option.some.injEq] at hc
      rw [← hc]
      exact dropWhile_head_not isSpace cs y _ hmid

theorem mem_of_mem_trimSpaceChars {cs : List Char} {c : Char} (h : c ∈ trimSpaceChars cs) :
    c ∈ cs := by
  obtain ⟨l, r, hcs, -⟩ := trimSpaceChars_spec cs
  rw [hcs]
  simp [h]

/-- The value of a line with a colon is the trimmed text after its last colon. -/
theorem getDataAfterColon_spec {line : String} (h : Contains line ":" = true) :
    ∃ pre post, line.data = pre ++ ':' :: post ∧ ':' ∉ post ∧
      getDataAfterColon line = ⟨trimSpaceChars post⟩ := by
  have hmem := (contains_colon_iff line).mp h
  obtain ⟨pre, post, hs, hpost, hres⟩ := (lastIndexAux_singleton ':' line.data 0 (-1)).2 hmem
  refine ⟨pre, post, hs, hpost, ?_⟩
  have hn : (((0 + pre.length : Nat) : Int) + 1).toNat = pre.length + 1 := by
    have e : ((0 + pre.length : Nat) : Int) + 1 = ((pre.length + 1 : Nat) : Int) := by
      push_cast; omega
    rw [e, Int.toNat_ofNat]
  have hdrop : List.drop (pre.length + 1) (pre ++ ':' :: post) = post := by
    rw [List.drop_append]
    rfl
  have hd : (":" : String).data = [':'] := rfl
  unfold getDataAfterColon LastIndex TrimSpace
  rw [hd, hres, hn, hs, hdrop]

/-- C12: for a line with a colon, the value `getDataAfterColon` hands to the
record parser is the text after the last colon of the line with the white
space around it removed: it has no colon and neither begins nor ends with
white space; a line without a colon leaves the record unchanged whatever its
prefix. -/
theorem C12_value_after_last_colon (line : String) :
    (Contains line ":" = true →
      ∃ pre post l r, line.data = pre ++ ':' :: post ∧ ':' ∉ post ∧
        post = l ++ (getDataAfterColon line).data ++ r ∧
        (∀ c ∈ l, isSpace c = true) ∧ (∀ c ∈ r, isSpace c = true) ∧
        ':' ∉ (getDataAfterColon line).data ∧
        (∀ c, (getDataAfterColon line).data.head? = some c → isSpace c = false) ∧
        (∀ c, (getDataAfterColon line).data.getLast? = some c → isSpace c = false)) ∧
    (Contains line ":" = false →
      ∀ {F : Type} (ops : FloatOps F) (it : IterInfo F),
        parseLine ops it line = it ∧ IterInfo.Parse ops it [line] = it) := by
  constructor
  · intro h
    obtain ⟨pre, post, hs, hpost, hval⟩ := getDataAfterColon_spec h
    obtain ⟨l, r, hcut, hl, hr, hhead, hlast⟩ := trimSpaceChars_spec post
    rw [hval]
    exact ⟨pre, post, l, r, hs, hpost, hcut, hl, hr,
      fun hc => hpost (mem_of_mem_trimSpaceChars hc), hhead, hlast⟩
  · intro h F ops it
    have := parseLine_noColon ops it line h
    exact ⟨this, by rw [parse_cons, parse_nil, this]⟩

/-- Witness for C12: the value of `"Eigenvalue 1:2:  0.5 "` is `"0.5"`, and
the line `"Eigenvalue 0.5"` changes nothing. -/
theorem C12_value_after_last_colon_witness :
    Contains "Eigenvalue 1:2:  0.5 " ":" = true ∧
    getDataAfterColon "Eigenvalue 1:2:  0.5 " = "0.5" ∧
    Contains "Eigenvalue 0.5" ":" = false ∧
    IterInfo.Parse decimalOps (IterInfo.fresh decimalOps) ["Eigenvalue 0.5"]
      = IterInfo.fresh decimalOps ∧
    ∃ pre post l r, ("Eigenvalue 1:2:  0.5 " : String).data = pre ++ ':' :: post ∧ ':' ∉ post ∧
        post = l ++ (getDataAfterColon "Eigenvalue 1:2:  0.5 ").data ++ r ∧
        (∀ c ∈ l, isSpace c = true) ∧ (∀ c ∈ r, isSpace c = true) ∧
        ':' ∉ (getDataAfterColon "Eigenvalue 1:2:  0.5 ").data ∧
        (∀ c, (getDataAfterColon "Eigenvalue 1:2:  0.5 ").data.head? = some c →
          isSpace c = false) ∧
        (∀ c, (getDataAfterColon "Eigenvalue 1:2:  0.5 ").data.getLast? = some c →
          isSpace c = false) :=
  ⟨by decide, by decide, by decide,
   ((C12_value_after_last_colon "Eigenvalue 0.5").2 (by decide) decimalOps
      (IterInfo.fresh decimalOps)).2,
   (C12_value_after_last_colon "Eigenvalue 1:2:  0.5 ").1 (by decide)⟩

/-! ## Claims on the dispatch by prefix -/

theorem hasPrefix_head {s p : String} (h : HasPrefix s p = true) (hp : p.data ≠ []) :
    s.data.head? = p.data.head? := by
  obtain ⟨t, ht⟩ := hasPrefix_iff.mp h
  rw [ht]
  cases hd : p.data with
  | nil => exact absurd hd hp
  | cons c r => rfl

theorem marker_head_injective :
    ∀ f g : Field, f.marker.data.head? = g.marker.data.head? → f = g := by
  intro f g
  cases f <;> cases g <;> decide

theorem marker_data_ne_nil (f : Field) : f.marker.data ≠ [] := by
  cases f <;> decide

/-- At most one of the seven prefixes begins a given line. -/
theorem marker_unique {line : String} {f g : Field} (hf : HasPrefix line f.marker = true)
    (hg : HasPrefix line g.marker = true) : f = g := by
  apply marker_head_injective
  rw [← hasPrefix_head hf (marker_data_ne_nil f), ← hasPrefix_head hg (marker_data_ne_nil g)]

theorem find?_of_unique {α : Type} (p : α → Bool) (a : α) :
    ∀ l : List α, a ∈ l → p a = true → (∀ x ∈ l, p x = true → x = a) →
      l.find? p = some a := by
  intro l
  induction l with
  | nil => intro h; exact absurd h (List.not_mem_nil a)
  | cons x xs ih =>
    intro hmem hpa huniq
    rw [List.find?_cons]
    cases hpx : p x with
    | true =>
      have := huniq x (List.mem_cons_self _ _) hpx
      rw [this]
    | false =>
      rcases List.mem_cons.mp hmem with h | h
      · rw [← h, hpa] at hpx
        exact absurd hpx (by decide)
      · exact ih h hpa (fun y hy => huniq y (List.mem_cons_of_mem _ hy))

/-- The line of a field applies the update of that field. -/
theorem parseLine_of_marker {F : Type} (ops : FloatOps F) (it : IterInfo F) (line : String)
    (f : Field) (hc : Contains line ":" = true) (hf : HasPrefix line f.marker = true) :
    parseLine ops it line = f.apply ops (getDataAfterColon line) it := by
  cases f with
  | number => exact parseLine_iteration ops it line hf
  | objective => exact parseLine_objective ops it line hf
  | eigenvalue => exact parseLine_eigenvalue ops it line hf hc
  | volume => exact parseLine_volume ops it line hf
  | design => exact parseLine_design ops it line hf
  | preparing => exact parseLine_preparing ops it line hf
  | solving => exact parseLine_solving ops it line hf

theorem agreeExcept_apply {F : Type} (ops : FloatOps F) (f : Field) (val : String)
    (it : IterInfo F) : AgreeExcept f (f.apply ops val it) it := by
  cases f <;>
    exact ⟨fun h => by first | rfl | exact absurd rfl h, fun h => by first | rfl | exact absurd rfl h,
      fun h => by first | rfl | exact absurd rfl h, fun h => by first | rfl | exact absurd rfl h,
      fun h => by first | rfl | exact absurd rfl h, fun h => by first | rfl | exact absurd rfl h,
      fun h => by first | rfl | exact absurd rfl h⟩

theorem agreeExcept_refl {F : Type} (f : Field) (it : IterInfo F) : AgreeExcept f it it :=
  ⟨fun _ => rfl, fun _ => rfl, fun _ => rfl, fun _ => rfl, fun _ => rfl, fun _ => rfl,
    fun _ => rfl⟩

/-- C13: at most one of the seven prefixes begins a line; hence the dispatch
with the seven prefixes checked in any order gives the record that
`IterInfo.Parse` gives for the line; a line beginning with the prefix of a
field leaves every other field unchanged; and a line beginning with none of
the prefixes leaves the record unchanged. -/
theorem C13_prefix_dispatch {F : Type} (ops : FloatOps F) (it : IterInfo F) (line : String) :
    (∀ f g : Field, HasPrefix line f.marker = true → HasPrefix line g.marker = true → f = g) ∧
    parseLineOrdered ops sourceOrder it line = parseLine ops it line ∧
    (∀ order : List Field, (∀ f : Field, f ∈ order) →
      parseLineOrdered ops order it line = parseLine ops it line) ∧
    (∀ f : Field, HasPrefix line f.marker = true → AgreeExcept f (parseLine ops it line) it) ∧
    ((∀ f : Field, HasPrefix line f.marker = false) → parseLine ops it line = it) := by
  have hnone : (∀ f : Field, HasPrefix line f.marker = false) → parseLine ops it line = it :=
    fun h => parseLine_unrecognized ops it line (h .number) (h .objective) (h .eigenvalue)
      (h .volume) (h .design) (h .preparing) (h .solving)
  have hord : ∀ order : List Field, (∀ f : Field, f ∈ order) →
      parseLineOrdered ops order it line = parseLine ops it line := by
    intro order hall
    unfold parseLineOrdered
    cases hc : Contains line ":" with
    | false =>
      rw [parseLine_noColon ops it line hc]
      rfl
    | true =>
      rw [if_neg (by decide)]
      by_cases hex : ∃ f : Field, HasPrefix line f.marker = true
      · obtain ⟨f, hf⟩ := hex
        rw [find?_of_unique (fun g => HasPrefix line g.marker) f order (hall f) hf
          (fun g _ hg => marker_unique hg hf)]
        exact (parseLine_of_marker ops it line f hc hf).symm
      · have hno : ∀ f : Field, HasPrefix line f.marker = false := by
          intro f
          cases hf : HasPrefix line f.marker with
          | false => rfl
          | true => exact absurd ⟨f, hf⟩ hex
        have hfind : order.find? (fun g => HasPrefix line g.marker) = none := by
          rw [List.find?_eq_none]
          intro g _
          rw [hno g]
          decide
        rw [hfind, hnone hno]
  refine ⟨fun f g hf hg => marker_unique hf hg, ?_, hord, ?_, hnone⟩
  · apply hord
    intro f
    cases f <;> decide
  · intro f hf
    cases hc : Contains line ":" with
    | false =>
      rw [parseLine_noColon ops it line hc]
      exact agreeExcept_refl f it
    | true =>
      rw [parseLine_of_marker ops it line f hc hf]
      exact agreeExcept_apply ops f _ it

/-- Witness for C13: with the prefixes checked in the reverse order the line
`"Design change: 0.002"` is parsed as by `IterInfo.Parse`, and only its
`DesignChange` field differs from the fresh record. -/
theorem C13_prefix_dispatch_witness :
    HasPrefix "Design change: 0.002" Field.design.marker = true ∧
    parseLineOrdered decimalOps sourceOrder.reverse (IterInfo.fresh decimalOps)
        "Design change: 0.002"
      = parseLine decimalOps (IterInfo.fresh decimalOps) "Design change: 0.002" ∧
    AgreeExcept Field.design
      (parseLine decimalOps (IterInfo.fresh decimalOps) "Design change: 0.002")
      (IterInfo.fresh decimalOps) ∧
    (parseLine decimalOps (IterInfo.fresh decimalOps) "Design change: 0.002").DesignChange
      = { mantissa := 2, scale := 3 } :=
  ⟨by decide,
   (C13_prefix_dispatch decimalOps (IterInfo.fresh decimalOps) "Design change: 0.002").2.2.1
     sourceOrder.reverse (fun f => by cases f <;> decide),
   (C13_prefix_dispatch decimalOps (IterInfo.fresh decimalOps) "Design change: 0.002").2.2.2.1
     Field.design (by decide),
   by decide⟩

/-! ## Claims on the durations -/

theorem timeOrZero_of_none {val : String} (h : getTime val = none) : timeOrZero val = 0 := by
  simp [timeOrZero, h]

/-- C14: a `"Preparing:"` (or `"Solving:"`) line whose value text, after the
two replacements of `getTime`, is rejected by `time.ParseDuration` sets
`PreparingTime` (or `SolvingTime`) to the zero duration whatever the field
held, changes nothing else, and the lines after it are parsed from the record
so obtained; `Parse` is total, no error is surfaced. -/
theorem C14_unparsable_duration_sets_zero {F : Type} (ops : FloatOps F) (it : IterInfo F)
    (pre post : List String) (line : String)
    (hbad : ParseDuration (ReplaceAll (ReplaceAll (getDataAfterColon line) " seconds " "s")
      " milliseconds" "ms") = none) :
    (HasPrefix line "Preparing:" = true →
      parseLine ops it line = { it with PreparingTime := 0 } ∧
      (IterInfo.Parse ops it (pre ++ [line])).PreparingTime = 0 ∧
      IterInfo.Parse ops it (pre ++ line :: post) =
        IterInfo.Parse ops { IterInfo.Parse ops it pre with PreparingTime := 0 } post) ∧
    (HasPrefix line "Solving:" = true →
      parseLine ops it line = { it with SolvingTime := 0 } ∧
      (IterInfo.Parse ops it (pre ++ [line])).SolvingTime = 0 ∧
      IterInfo.Parse ops it (pre ++ line :: post) =
        IterInfo.Parse ops { IterInfo.Parse ops it pre with SolvingTime := 0 } post) := by
  have hz : timeOrZero (getDataAfterColon line) = 0 := timeOrZero_of_none hbad
  constructor
  · intro h
    have hstep : ∀ a : IterInfo F, parseLine ops a line = { a with PreparingTime := 0 } := by
      intro a
      rw [parseLine_preparing ops a line h, hz]
    refine ⟨hstep it, ?_, ?_⟩
    · rw [parse_append, parse_cons, parse_nil, hstep]
    · rw [parse_append, parse_cons, hstep]
  · intro h
    have hstep : ∀ a : IterInfo F, parseLine ops a line = { a with SolvingTime := 0 } := by
      intro a
      rw [parseLine_solving ops a line h, hz]
    refine ⟨hstep it, ?_, ?_⟩
    · rw [parse_append, parse_cons, parse_nil, hstep]
    · rw [parse_append, parse_cons, hstep]

/-- Witness for C14: after `Preparing: 3s`, the line `Preparing: soon` puts the
preparing time back to zero, and the `Objective` line after it is parsed. -/
theorem C14_unparsable_duration_sets_zero_witness :
    (IterInfo.Parse decimalOps (IterInfo.fresh decimalOps) ["Preparing: 3s"]).PreparingTime
      = 3000000000 ∧
    HasPrefix "Preparing: soon" "Preparing:" = true ∧
    (IterInfo.Parse decimalOps (IterInfo.fresh decimalOps)
      (["Preparing: 3s"] ++ ["Preparing: soon"])).PreparingTime = 0 ∧
    IterInfo.Parse decimalOps (IterInfo.fresh decimalOps)
        (["Preparing: 3s"] ++ "Preparing: soon" :: ["Objective: 2"]) =
      IterInfo.Parse decimalOps
        { IterInfo.Parse decimalOps (IterInfo.fresh decimalOps) ["Preparing: 3s"] with
          PreparingTime := 0 } ["Objective: 2"] :=
  ⟨by decide, by decide,
   ((C14_unparsable_duration_sets_zero decimalOps (IterInfo.fresh decimalOps) ["Preparing: 3s"]
      ["Objective: 2"] "Preparing: soon" (by decide)).1 (by decide)).2.1,
   ((C14_unparsable_duration_sets_zero decimalOps (IterInfo.fresh decimalOps) ["Preparing: 3s"]
      ["Objective: 2"] "Preparing: soon" (by decide)).1 (by decide)).2.2⟩

/-! ## The records of the loaded report -/

/-- The result of the loader loop: the records already present are kept and
one record is appended for each remaining block, parsed from a fresh record
on the slice of the block. -/
theorem loadLoop_spec {F : Type} (ops : FloatOps F) (data : List String) (e : List Nat) :
    ∀ (bs : List Nat) (i : Nat) (acc its : List (IterInfo F)),
      loadLoop ops data e bs i acc = some its →
      (∀ (j : Nat) (r : IterInfo F), acc[j]? = some r → its[j]? = some r) ∧
      ∀ (k s : Nat), bs[k]? = some s → ∃ t block, e[i + k]? = some t ∧
        slice data s (t + 1) = some block ∧
        its[acc.length + k]? = some (IterInfo.Parse ops (IterInfo.fresh ops) block) := by
  intro bs
  induction bs with
  | nil =>
    intro i acc its h
    simp only [loadLoop, Option.some.injEq] at h
    subst h
    exact ⟨fun j r hj => hj, fun k s hk => absurd hk (by simp)⟩
  | cons s0 bs ih =>
    intro i acc its h
    unfold loadLoop at h
    cases he : e[i]? with
    | none => rw [he] at h; exact absurd h (by simp)
    | some t =>
      rw [he] at h
      simp only at h
      cases hsl : slice data s0 (t + 1) with
      | none => rw [hsl] at h; exact absurd h (by simp)
      | some block =>
        rw [hsl] at h
        simp only at h
        obtain ⟨ih1, ih2⟩ := ih _ _ _ h
        have hlast : (acc ++ [IterInfo.Parse ops (IterInfo.fresh ops) block])[acc.length]?
            = some (IterInfo.Parse ops (IterInfo.fresh ops) block) := by simp
        constructor
        · intro j r hj
          apply ih1
          obtain ⟨hjl, -⟩ := List.getElem?_eq_some_iff.mp hj
          rw [List.getElem?_append_left hjl]
          exact hj
        · intro k s hk
          cases k with
          | zero =>
            simp only [List.getElem?_cons_zero, Option.some.injEq] at hk
            subst hk
            exact ⟨t, block, he, hsl, ih1 _ _ hlast⟩
          | succ k =>
            simp only [List.getElem?_cons_succ] at hk
            obtain ⟨t', block', h1, h2, h3⟩ := ih2 k s hk
            refine ⟨t', block', ?_, h2, ?_⟩
            · have e1 : i + (k + 1) = i + 1 + k := by omega
              rw [e1]; exact h1
            · have e2 : acc.length + (k + 1)
                  = (acc ++ [IterInfo.Parse ops (IterInfo.fresh ops) block]).length + k := by
                simp; omega
              rw [e2]; exact h3

/-- The report that `Load` builds from a readable source: one record for each
block of `getLimIter`, in the order of the blocks, each parsed from a fresh
record on the lines of its block. -/
theorem load_spec {F : Type} (ops : FloatOps F) (info info' : FullInfo F)
    (data : List String) (err : Option String)
    (h : FullInfo.Load ops info (data, none) = some (info', err)) :
    ∃ b e, getLimIter data = some (b, e) ∧ err = none ∧ info'.Iterations.length = b.length ∧
      ∀ (i s t : Nat), b[i]? = some s → e[i]? = some t → ∃ block,
        slice data s (t + 1) = some block ∧
        info'.Iterations[i]? = some (IterInfo.Parse ops (IterInfo.fresh ops) block) := by
  unfold FullInfo.Load at h
  simp only at h
  cases hg : getLimIter data with
  | none => rw [hg] at h; exact absurd h (by simp)
  | some be =>
    obtain ⟨b, e⟩ := be
    rw [hg] at h
    simp only at h
    cases hl : loadLoop ops data e b 0 [] with
    | none => rw [hl] at h; exact absurd h (by simp)
    | some its =>
      rw [hl] at h
      simp only [Option.some.injEq, Prod.mk.injEq] at h
      obtain ⟨rfl, rfl⟩ := h
      refine ⟨b, e, rfl, rfl, ?_, ?_⟩
      · have := loadLoop_length ops data e b 0 [] its hl
        simpa using this
      · intro i s t hs ht
        obtain ⟨t', block, h1, h2, h3⟩ := (loadLoop_spec ops data e b 0 [] its hl).2 i s hs
        simp only [Nat.zero_add, List.length_nil] at h1 h3
        rw [ht] at h1
        simp only [Option.some.injEq] at h1
        subst h1
        exact ⟨block, h2, h3⟩

/-- In a log that `getLimIter` delimits, a block with no line beginning with
`"Design change: "` between its start and the next start (or the end of the
input) has `end = start`; its slice is the Iteration line alone, and the
record that `Load` builds for it is the fresh record with only `Number` set
from that line: `Objective`, `VolumeConstrain`, `DesignChange` zero, no
eigenvalues, zero durations, whatever lines follow the marker in the log. -/
theorem block_without_design_change {F : Type} (ops : FloatOps F) (data : List String)
    (b e : List Nat) (h : getLimIter data = some (b, e)) (i : Nat) (hb : i < b.length)
    (he : i < e.length)
    (hno : ∀ j l, b[i] < j → j < (b[i + 1]?).getD data.length → data[j]? = some l →
      HasPrefix l "Design change: " = false) :
    e[i] = b[i] ∧
    ∃ l, data[b[i]]? = some l ∧ HasPrefix l "Iteration: " = true ∧
      slice data b[i] (e[i] + 1) = some [l] ∧
      IterInfo.Parse ops (IterInfo.fresh ops) [l] =
        { Number := intOrNegOne (getDataAfterColon l), PreparingTime := 0, SolvingTime := 0,
          Eigenvalues := [], Objective := ops.zero, VolumeConstrain := ops.zero,
          DesignChange := ops.zero } ∧
      ∀ (info info' : FullInfo F) (err : Option String),
        FullInfo.Load ops info (data, none) = some (info', err) →
        info'.Iterations[i]? =
          some { Number := intOrNegOne (getDataAfterColon l), PreparingTime := 0,
                 SolvingTime := 0, Eigenvalues := [], Objective := ops.zero,
                 VolumeConstrain := ops.zero, DesignChange := ops.zero } := by
  have hs : b[i]? = some b[i] := by simp [hb]
  have ht : e[i]? = some e[i] := by simp [he]
  obtain ⟨-, -, hblk⟩ := getLimIter_spec h
  obtain ⟨h1, h2, h3, h4⟩ := hblk i b[i] e[i] hs ht
  have heq : e[i] = b[i] := by
    rcases h3 with h3 | ⟨l, hl, hd⟩
    · exact h3
    · by_contra hne
      have := hno e[i] l (by omega) h2 hl
      rw [hd] at this
      exact absurd this (by decide)
  obtain ⟨hbnd1, hbnd2, hbnd3⟩ := getLimIter_bounds h hs ht
  have hlen : b[i] < data.length := by omega
  have hslice : slice data b[i] (e[i] + 1) = some [data[b[i]]] := by
    unfold slice
    rw [if_pos ⟨by omega, by omega⟩, heq]
    congr 1
    have hlt : b[i] < (List.take (b[i] + 1) data).length := by
      rw [List.length_take]; omega
    rw [List.drop_eq_getElem_cons hlt, List.getElem_take]
    congr 1
    rw [List.drop_eq_nil_iff, List.length_take]
    omega
  obtain ⟨l, rest, hbl, hl, hp⟩ := block_head h hs ht hslice
  simp only [List.cons.injEq] at hbl
  obtain ⟨hbl1, -⟩ := hbl
  rw [hbl1] at hslice
  have hrec : IterInfo.Parse ops (IterInfo.fresh ops) [l] =
      { Number := intOrNegOne (getDataAfterColon l), PreparingTime := 0, SolvingTime := 0,
        Eigenvalues := [], Objective := ops.zero, VolumeConstrain := ops.zero,
        DesignChange := ops.zero } := by
    rw [parse_cons, parse_nil, parseLine_iteration ops _ l (hasPrefix_trans hp (by decide))]
    rfl
  refine ⟨heq, l, hl, hp, hslice, hrec, ?_⟩
  intro info info' err hload
  obtain ⟨b', e', hg, -, -, hrecs⟩ := load_spec ops info info' data err hload
  rw [h] at hg
  simp only [Option.some.injEq, Prod.mk.injEq] at hg
  obtain ⟨rfl, rfl⟩ := hg
  obtain ⟨block, hb1, hb2⟩ := hrecs i b[i] e[i] hs ht
  rw [hslice] at hb1
  simp only [Option.some.injEq] at hb1
  rw [← hb1, hrec] at hb2
  exact hb2

/-- The second block of the two-block log, `Iteration: 2` followed by
`Objective: 4`, has the range `[6, 6]` and its record has the number 2 and the
objective zero. -/
theorem block_without_design_change_example :
    getLimIter twoBlockLog = some ([1, 6], [4, 6]) ∧
    twoBlockLog[7]? = some "Objective: 4" ∧
    (FullInfo.Load decimalOps { Iterations := [] } (twoBlockLog, none)).isSome = true ∧
    ∃ l, twoBlockLog[6]? = some l ∧ HasPrefix l "Iteration: " = true ∧
      slice twoBlockLog 6 (6 + 1) = some [l] ∧
      IterInfo.Parse decimalOps (IterInfo.fresh decimalOps) [l] =
        { Number := intOrNegOne (getDataAfterColon l), PreparingTime := 0, SolvingTime := 0,
          Eigenvalues := [], Objective := decimalOps.zero, VolumeConstrain := decimalOps.zero,
          DesignChange := decimalOps.zero } ∧
      ∀ (info info' : FullInfo Decimal) (err : Option String),
        FullInfo.Load decimalOps info (twoBlockLog, none) = some (info', err) →
        info'.Iterations[1]? =
          some { Number := intOrNegOne (getDataAfterColon l), PreparingTime := 0,
                 SolvingTime := 0, Eigenvalues := [], Objective := decimalOps.zero,
                 VolumeConstrain := decimalOps.zero, DesignChange := decimalOps.zero } :=
  ⟨by decide, by decide, by decide,
   (block_without_design_change decimalOps twoBlockLog [1, 6] [4, 6] (by decide) 1
      (by decide) (by decide) (by
        intro j l h1 h2 hl
        have hj : j = 7 := by
          simp only [List.getElem_cons_succ, List.getElem_cons_zero] at h1
          have : j < 8 := by simpa [twoBlockLog] using h2
          omega
        subst hj
        have : l = "Objective: 4" := by
          have h7 : twoBlockLog[7]? = some "Objective: 4" := by decide
          rw [h7] at hl
          exact (Option.some.inj hl).symm
        subst this
        decide)).2⟩

/-- C15 (the code departs from the claim): in `leadingDesignLog` the
iteration block that starts at the line `Iteration: 1` contains no line
beginning with `"Design change: "` up to the end of the input, so the claim
gives it the range `[1, 1]` and a loaded record with the number 1; but the
first line of the log makes `getLimIter` index the empty slice of ends and
panic, and `Load` panics with it: no range is returned and no record is
loaded. Without that first line the range is `[0, 0]` and the record has the
number 1 and every other field zero. -/
theorem C15_no_record_after_leading_design_change :
    leadingDesignLog[1]? = some "Iteration: 1" ∧
    HasPrefix "Iteration: 1" "Design change: " = false ∧
    leadingDesignLog[2]? = some "Objective: 4" ∧
    HasPrefix "Objective: 4" "Design change: " = false ∧
    leadingDesignLog.length = 3 ∧
    getLimIter leadingDesignLog = none ∧
    FullInfo.Load decimalOps { Iterations := [] } (leadingDesignLog, none) = none ∧
    getLimIter (leadingDesignLog.drop 1) = some ([0], [0]) ∧
    FullInfo.Load decimalOps { Iterations := [] } (leadingDesignLog.drop 1, none) =
      some ({ Iterations := [{ IterInfo.fresh decimalOps with Number := 1 }] }, none) := by
  decide

/-! ## Claims on the blocks and their records -/

theorem mem_iterationLines_iff {data : List String} {j : Nat} :
    j ∈ iterationLines data ↔ ∃ l, data[j]? = some l ∧ HasPrefix l "Iteration: " = true := by
  constructor
  · intro h
    exact (mem_iterationLines h).2
  · rintro ⟨l, hl, hp⟩
    obtain ⟨hj, -⟩ := List.getElem?_eq_some_iff.mp hl
    unfold iterationLines
    rw [List.mem_filter, List.mem_range]
    refine ⟨hj, ?_⟩
    simpa [List.getD_eq_getElem?_getD, hl] using hp

/-- The starts of the blocks increase strictly. -/
theorem getLimIter_starts_increasing {data : List String} {b e : List Nat}
    (h : getLimIter data = some (b, e)) (i j : Nat) (hi : i < b.length) (hj : j < b.length)
    (hij : i < j) : b[i] < b[j] := by
  have hpw := iterationLines_pairwise data
  rw [← (getLimIter_spec h).1] at hpw
  exact List.pairwise_iff_getElem.mp hpw i j hi hj hij

/-- A block ends before every later block starts. -/
theorem getLimIter_end_lt_start {data : List String} {b e : List Nat}
    (h : getLimIter data = some (b, e)) (i j : Nat) (hi : i < e.length) (hj : j < b.length)
    (hij : i < j) : e[i] < b[j] := by
  have hlen := (getLimIter_spec h).2.1
  have hib : i < b.length := by omega
  have hi1 : i + 1 < b.length := by omega
  have hbnd := getLimIter_bounds h (i := i) (s := b[i]) (t := e[i]) (by simp [hib]) (by simp [hi])
  have hsome : b[i + 1]? = some b[i + 1] := by simp [hi1]
  rw [hsome] at hbnd
  simp only [Option.getD_some] at hbnd
  by_cases hje : j = i + 1
  · subst hje
    exact hbnd.2.1
  · have := getLimIter_starts_increasing h (i + 1) j hi1 hj (by omega)
    omega

/-- C18: when delimiting completes the starts increase strictly, every block
ends before the next one starts, so that no line index lies in two blocks; and
when `Load` completes the report has one record for each block, the `i`-th
record being the one parsed from the lines of the `i`-th block. -/
theorem C18_blocks_ordered_and_disjoint (data : List String) (b e : List Nat)
    (h : getLimIter data = some (b, e)) :
    (∀ (i j : Nat) (hi : i < b.length) (hj : j < b.length), i < j → b[i] < b[j]) ∧
    (∀ (i : Nat) (hi : i + 1 < b.length) (he : i < e.length), e[i] < b[i + 1]) ∧
    (∀ (i j k : Nat) (hi : i < b.length) (hi' : i < e.length) (hj : j < b.length)
      (hj' : j < e.length), b[i] ≤ k → k ≤ e[i] → b[j] ≤ k → k ≤ e[j] → i = j) ∧
    ∀ {F : Type} (ops : FloatOps F) (info info' : FullInfo F) (err : Option String),
      FullInfo.Load ops info (data, none) = some (info', err) →
      info'.Iterations.length = b.length ∧
      ∀ (i : Nat) (hi : i < b.length) (hi' : i < e.length), ∃ block,
        slice data b[i] (e[i] + 1) = some block ∧
        info'.Iterations[i]? = some (IterInfo.Parse ops (IterInfo.fresh ops) block) := by
  refine ⟨fun i j hi hj hij => getLimIter_starts_increasing h i j hi hj hij,
    fun i hi he => getLimIter_end_lt_start h i (i + 1) he hi (by omega), ?_, ?_⟩
  · intro i j k hi hi' hj hj' h1 h2 h3 h4
    rcases Nat.lt_trichotomy i j with hlt | heq | hgt
    · have := getLimIter_end_lt_start h i j hi' hj hlt
      omega
    · exact heq
    · have := getLimIter_end_lt_start h j i hj' hi hgt
      omega
  · intro F ops info info' err hload
    obtain ⟨b', e', hg, -, hlen, hrecs⟩ := load_spec ops info info' data err hload
    rw [h] at hg
    simp only [Option.some.injEq, Prod.mk.injEq] at hg
    obtain ⟨rfl, rfl⟩ := hg
    exact ⟨hlen, fun i hi hi' => hrecs i b[i] e[i] (by simp [hi]) (by simp [hi'])⟩

/-- Witness for C18: the blocks `[1, 4]` and `[6, 6]` of the two-block log are
in order and apart, and `Load` completes on it. -/
theorem C18_blocks_ordered_and_disjoint_witness :
    getLimIter twoBlockLog = some ([1, 6], [4, 6]) ∧
    (FullInfo.Load decimalOps { Iterations := [] } (twoBlockLog, none)).isSome = true ∧
    (∀ (i : Nat) (hi : i + 1 < [1, 6].length) (he : i < [4, 6].length),
      [4, 6][i] < [1, 6][i + 1]) :=
  ⟨by decide, by decide,
   (C18_blocks_ordered_and_disjoint twoBlockLog [1, 6] [4, 6] (by decide)).2.1⟩

/-- C16 (the claim as stated fails): in `tightIterationLog` the line
`"Iteration:7"` is an iteration-number field for the record parser (the record
of the block gets the number 7) and begins no block, the only start being 0; in
`tightDesignLog` the line `"Design change:0.9"`, the last line with the
parser's prefix, is a design-change field for the parser and does not close
the block, whose end stays 1. -/
theorem C16_markers_differ :
    HasPrefix "Iteration:7" "Iteration:" = true ∧
    getLimIter tightIterationLog = some ([0], [2]) ∧
    (IterInfo.Parse decimalOps (IterInfo.fresh decimalOps) tightIterationLog).Number = 7 ∧
    HasPrefix "Design change:0.9" "Design change:" = true ∧
    parseLine decimalOps (IterInfo.fresh decimalOps) "Design change:0.9" =
      { IterInfo.fresh decimalOps with DesignChange := { mantissa := 9, scale := 1 } } ∧
    getLimIter tightDesignLog = some ([0], [1]) := by
  decide

/-- C16 (amended): the markers of the block delimiter are the prefixes of the
record parser followed by a blank. The record parser sets `Number` from every
line beginning with `"Iteration:"` and `DesignChange` from every line
beginning with `"Design change:"`, hence from every line beginning with the
delimiter's `"Iteration: "` and `"Design change: "`. In a log that
`getLimIter` delimits, the lines that begin a block are exactly the lines
beginning with `"Iteration: "`; a line beginning with `"Design change: "`
inside a block is the end of the block when no later line of the block begins
with `"Design change: "`; every end of a block is its start or such a line;
and a line beginning with neither marker of the delimiter, whatever the
record parser makes of it, is neither the start nor the end of a block. -/
theorem C16_delimiter_markers_are_parser_prefixes {F : Type} (ops : FloatOps F)
    (data : List String) (b e : List Nat) (h : getLimIter data = some (b, e)) :
    (∀ (l : String) (it : IterInfo F), HasPrefix l "Iteration:" = true →
      parseLine ops it l = { it with Number := intOrNegOne (getDataAfterColon l) }) ∧
    (∀ (l : String) (it : IterInfo F), HasPrefix l "Design change:" = true →
      parseLine ops it l =
        { it with DesignChange := floatOrNegOne ops (getDataAfterColon l) }) ∧
    (∀ (l : String) (it : IterInfo F), HasPrefix l "Iteration: " = true →
      parseLine ops it l = { it with Number := intOrNegOne (getDataAfterColon l) }) ∧
    (∀ (l : String) (it : IterInfo F), HasPrefix l "Design change: " = true →
      parseLine ops it l =
        { it with DesignChange := floatOrNegOne ops (getDataAfterColon l) }) ∧
    (∀ (j : Nat) (l : String), data[j]? = some l →
      (j ∈ b ↔ HasPrefix l "Iteration: " = true)) ∧
    (∀ (i : Nat) (hb : i < b.length) (he : i < e.length) (j : Nat) (l : String),
      b[i] < j → j < (b[i + 1]?).getD data.length → data[j]? = some l →
      HasPrefix l "Design change: " = true →
      (∀ (k : Nat) (m : String), j < k → k < (b[i + 1]?).getD data.length →
        data[k]? = some m → HasPrefix m "Design change: " = false) →
      e[i] = j) ∧
    (∀ (i : Nat) (hb : i < b.length) (he : i < e.length),
      e[i] = b[i] ∨ ∃ l, data[e[i]]? = some l ∧ HasPrefix l "Design change: " = true) ∧
    (∀ (j : Nat) (l : String), data[j]? = some l → HasPrefix l "Iteration: " = false →
      HasPrefix l "Design change: " = false → j ∉ b ∧ j ∉ e) := by
  obtain ⟨hbeq, hlen, hblk⟩ := getLimIter_spec h
  have hstart : ∀ (j : Nat) (l : String), data[j]? = some l →
      (j ∈ b ↔ HasPrefix l "Iteration: " = true) := by
    intro j l hl
    rw [hbeq, mem_iterationLines_iff]
    constructor
    · rintro ⟨l', hl', hp⟩
      rw [hl] at hl'
      rw [Option.some.inj hl']
      exact hp
    · intro hp
      exact ⟨l, hl, hp⟩
  have hends : ∀ (i : Nat) (hb : i < b.length) (he : i < e.length),
      e[i] = b[i] ∨ ∃ l, data[e[i]]? = some l ∧ HasPrefix l "Design change: " = true :=
    fun i hb he => (hblk i b[i] e[i] (by simp [hb]) (by simp [he])).2.2.1
  refine ⟨fun l it hl => parseLine_iteration ops it l hl,
    fun l it hl => parseLine_design ops it l hl,
    fun l it hl => parseLine_iteration ops it l (hasPrefix_trans hl (by decide)),
    fun l it hl => parseLine_design ops it l (hasPrefix_trans hl (by decide)),
    hstart, ?_, hends, ?_⟩
  · intro i hb he j l hj1 hj2 hl hd hlast
    obtain ⟨h1, h2, h3, h4⟩ := hblk i b[i] e[i] (by simp [hb]) (by simp [he])
    rcases Nat.lt_trichotomy e[i] j with hlt | heq | hgt
    · have := h4 j l hlt hj2 hl
      rw [hd] at this
      exact absurd this (by decide)
    · exact heq
    · rcases h3 with h3 | ⟨m, hm, hmd⟩
      · omega
      · have := hlast e[i] m hgt h2 hm
        rw [hmd] at this
        exact absurd this (by decide)
  · intro j l hl hI hD
    have hjb : j ∉ b := by
      intro hmem
      have := (hstart j l hl).mp hmem
      rw [hI] at this
      exact absurd this (by decide)
    refine ⟨hjb, ?_⟩
    intro hmem
    obtain ⟨i, hi⟩ := List.mem_iff_getElem?.mp hmem
    obtain ⟨hie, hiv⟩ := List.getElem?_eq_some_iff.mp hi
    have hib : i < b.length := by omega
    rcases hends i hib hie with heq | ⟨m, hm, hmd⟩
    · apply hjb
      rw [← hiv, heq]
      exact List.getElem_mem hib
    · rw [hiv, hl] at hm
      rw [← Option.some.inj hm, hD] at hmd
      exact absurd hmd (by decide)

/-- Witness for C16 (amended): in the two-block log the starts are the lines 1
and 6, line 1 is the line `"Iteration: 1"`, from which the record parser sets
the number 1, and line 3, `"Objective: 2"`, is no start and no end. -/
theorem C16_delimiter_markers_are_parser_prefixes_witness :
    getLimIter twoBlockLog = some ([1, 6], [4, 6]) ∧
    twoBlockLog[1]? = some "Iteration: 1" ∧
    (1 ∈ [1, 6] ↔ HasPrefix "Iteration: 1" "Iteration: " = true) ∧
    parseLine decimalOps (IterInfo.fresh decimalOps) "Iteration: 1" =
      { IterInfo.fresh decimalOps with
        Number := intOrNegOne (getDataAfterColon "Iteration: 1") } ∧
    intOrNegOne (getDataAfterColon "Iteration: 1") = 1 ∧
    (3 ∉ [1, 6] ∧ 3 ∉ [4, 6]) :=
  ⟨by decide, by decide,
   (C16_delimiter_markers_are_parser_prefixes decimalOps twoBlockLog [1, 6] [4, 6]
     (by decide)).2.2.2.2.1 1 "Iteration: 1" (by decide),
   (C16_delimiter_markers_are_parser_prefixes decimalOps twoBlockLog [1, 6] [4, 6]
     (by decide)).2.2.1 "Iteration: 1" (IterInfo.fresh decimalOps) (by decide),
   by decide,
   (C16_delimiter_markers_are_parser_prefixes decimalOps twoBlockLog [1, 6] [4, 6]
     (by decide)).2.2.2.2.2.2.2 3 "Objective: 2" (by decide) (by decide) (by decide)⟩

/-! ## Claims on the generic reduction -/

theorem min_spec (a b : Int) : min a b ≤ a ∧ min a b ≤ b ∧ (min a b = a ∨ min a b = b) := by
  unfold min
  split
  · rename_i h
    exact ⟨le_refl _, Int.le_of_lt h, Or.inl rfl⟩
  · rename_i h
    exact ⟨Int.not_lt.mp h, le_refl _, Or.inr rfl⟩

theorem max_spec (a b : Int) : a ≤ max a b ∧ b ≤ max a b ∧ (max a b = a ∨ max a b = b) := by
  unfold max
  split
  · rename_i h
    exact ⟨le_refl _, Int.le_of_lt h, Or.inl rfl⟩
  · rename_i h
    exact ⟨Int.not_lt.mp h, le_refl _, Or.inr rfl⟩

/-- A fold with `min` from `acc`: the result is below `acc` and below every
value, and it is `acc` or one of the values. -/
theorem foldl_min_spec {F : Type} (key : IterInfo F → Int) (its : List (IterInfo F)) :
    ∀ acc : Int,
      its.foldl (fun result it => min result (key it)) acc ≤ acc ∧
      (∀ it ∈ its, its.foldl (fun result it => min result (key it)) acc ≤ key it) ∧
      (its.foldl (fun result it => min result (key it)) acc = acc ∨
        ∃ it ∈ its, its.foldl (fun result it => min result (key it)) acc = key it) := by
  induction its with
  | nil =>
    intro acc
    exact ⟨le_refl _, fun it h => absurd h (List.not_mem_nil it), Or.inl rfl⟩
  | cons x xs ih =>
    intro acc
    simp only [List.foldl_cons]
    obtain ⟨h1, h2, h3⟩ := ih (min acc (key x))
    obtain ⟨hm1, hm2, hm3⟩ := min_spec acc (key x)
    refine ⟨le_trans h1 hm1, ?_, ?_⟩
    · intro it hit
      rcases List.mem_cons.mp hit with rfl | hit
      · exact le_trans h1 hm2
      · exact h2 it hit
    · rcases h3 with h3 | ⟨it, hit, h3⟩
      · rcases hm3 with hm3 | hm3
        · exact Or.inl (h3.trans hm3)
        · exact Or.inr ⟨x, List.mem_cons_self _ _, h3.trans hm3⟩
      · exact Or.inr ⟨it, List.mem_cons_of_mem _ hit, h3⟩

/-- A fold with `max` from `acc`: the result is above `acc` and above every
value, and it is `acc` or one of the values. -/
theorem foldl_max_spec {F : Type} (key : IterInfo F → Int) (its : List (IterInfo F)) :
    ∀ acc : Int,
      acc ≤ its.foldl (fun result it => max result (key it)) acc ∧
      (∀ it ∈ its, key it ≤ its.foldl (fun result it => max result (key it)) acc) ∧
      (its.foldl (fun result it => max result (key it)) acc = acc ∨
        ∃ it ∈ its, its.foldl (fun result it => max result (key it)) acc = key it) := by
  induction its with
  | nil =>
    intro acc
    exact ⟨le_refl _, fun it h => absurd h (List.not_mem_nil it), Or.inl rfl⟩
  | cons x xs ih =>
    intro acc
    simp only [List.foldl_cons]
    obtain ⟨h1, h2, h3⟩ := ih (max acc (key x))
    obtain ⟨hm1, hm2, hm3⟩ := max_spec acc (key x)
    refine ⟨le_trans hm1 h1, ?_, ?_⟩
    · intro it hit
      rcases List.mem_cons.mp hit with rfl | hit
      · exact le_trans hm2 h1
      · exact h2 it hit
    · rcases h3 with h3 | ⟨it, hit, h3⟩
      · rcases hm3 with hm3 | hm3
        · exact Or.inl (h3.trans hm3)
        · exact Or.inr ⟨x, List.mem_cons_self _ _, h3.trans hm3⟩
      · exact Or.inr ⟨it, List.mem_cons_of_mem _ hit, h3⟩

/-- C17 (the code departs from the claim): `reduceIterations` starts its fold
from the zero duration, which is not neutral for `min` and `max`. On the
non-empty timing report, whose solving times are 2 s and 1.5 s, reducing
`timeSol` with `min` returns 0 and not their minimum 1.5 s; on the non-empty
report with the single solving time -5 s, reducing with `max` returns 0 and
not -5 s. Reducing with `sum` returns the sum, 3.5 s. -/
theorem C17_min_max_start_from_zero :
    timingReport.Iterations.map timeSol = [2000000000, 1500000000] ∧
    timingReport.reduceIterations timeSol min = 0 ∧
    negativeReport.Iterations.map timeSol = [-5000000000] ∧
    negativeReport.reduceIterations timeSol max = 0 ∧
    timingReport.reduceIterations timeSol sum = 3500000000 := by
  decide

/-- What the fold from the zero duration does return: with `max` the maximum
of the extracted durations when one of them is not negative, with `min` their
minimum when one of them is not positive, with `sum` their sum reduced to the
`int64` range; the empty report reduces to zero. -/
theorem reduceIterations_from_zero {F : Type} (info : FullInfo F)
    (key : IterInfo F → Duration) :
    (∀ op : Duration → Duration → Duration,
      ({ Iterations := [] } : FullInfo F).reduceIterations key op = 0) ∧
    ((∃ it ∈ info.Iterations, key it ≤ 0) →
      (∃ it ∈ info.Iterations, info.reduceIterations key min = key it) ∧
      ∀ it ∈ info.Iterations, info.reduceIterations key min ≤ key it) ∧
    ((∃ it ∈ info.Iterations, 0 ≤ key it) →
      (∃ it ∈ info.Iterations, info.reduceIterations key max = key it) ∧
      ∀ it ∈ info.Iterations, key it ≤ info.reduceIterations key max) ∧
    info.reduceIterations key sum = wrap64 ((info.Iterations.map key).sum) ∧
    (-2 ^ 63 ≤ (info.Iterations.map key).sum ∧ (info.Iterations.map key).sum < 2 ^ 63 →
      info.reduceIterations key sum = (info.Iterations.map key).sum) := by
  have hmin : info.reduceIterations key min ≤ 0 ∧
      (∀ it ∈ info.Iterations, info.reduceIterations key min ≤ key it) ∧
      (info.reduceIterations key min = 0 ∨
        ∃ it ∈ info.Iterations, info.reduceIterations key min = key it) :=
    foldl_min_spec key info.Iterations 0
  have hmax : 0 ≤ info.reduceIterations key max ∧
      (∀ it ∈ info.Iterations, key it ≤ info.reduceIterations key max) ∧
      (info.reduceIterations key max = 0 ∨
        ∃ it ∈ info.Iterations, info.reduceIterations key max = key it) :=
    foldl_max_spec key info.Iterations 0
  obtain ⟨-, a2, a3⟩ := hmin
  obtain ⟨-, b2, b3⟩ := hmax
  refine ⟨fun op => rfl, ?_, ?_, reduceIterations_sum info key, ?_⟩
  · rintro ⟨it, hit, hle⟩
    refine ⟨?_, a2⟩
    rcases a3 with a3 | a3
    · exact ⟨it, hit, le_antisymm (a2 it hit) (by rw [a3]; exact hle)⟩
    · exact a3
  · rintro ⟨it, hit, hle⟩
    refine ⟨?_, b2⟩
    rcases b3 with b3 | b3
    · exact ⟨it, hit, le_antisymm (by rw [b3]; exact hle) (b2 it hit)⟩
    · exact b3
  · rintro ⟨h1, h2⟩
    rw [reduceIterations_sum, wrap64_of_range h1 h2]

/-- The report with the solving time -5 s has an extracted duration that is
not positive, and its `min` reduction is -5 s; the timing report has a solving
time that is not negative, and its `max` reduction is one of its solving
times. -/
theorem reduceIterations_from_zero_example :
    (∃ it ∈ negativeReport.Iterations, timeSol it ≤ 0) ∧
    negativeReport.reduceIterations timeSol min = -5000000000 ∧
    (∃ it ∈ negativeReport.Iterations, negativeReport.reduceIterations timeSol min = timeSol it) ∧
    timingReport.reduceIterations timeSol max = 2000000000 ∧
    (∃ it ∈ timingReport.Iterations, timingReport.reduceIterations timeSol max = timeSol it) :=
  ⟨⟨_, List.mem_cons_self _ _, by decide⟩, by decide,
   ((reduceIterations_from_zero negativeReport timeSol).2.1
     ⟨_, List.mem_cons_self _ _, by decide⟩).1,
   by decide,
   ((reduceIterations_from_zero timingReport timeSol).2.2.1
     ⟨_, List.mem_cons_self _ _, by decide⟩).1⟩

/-! ## Claims on the algebra of the totals -/

theorem sum_map_add_int {α : Type} (f g : α → Int) (xs : List α) :
    (xs.map (fun x => f x + g x)).sum = (xs.map f).sum + (xs.map g).sum := by
  induction xs with
  | nil => rfl
  | cons x xs ih =>
    simp only [List.map_cons, List.sum_cons, ih]
    omega

theorem wrap64_add_both (a c : Int) : wrap64 (wrap64 a + wrap64 c) = wrap64 (a + c) := by
  rw [wrap64_add_left, wrap64_add_right]

/-- Every reduction with `sum` is additive over the concatenation of reports. -/
theorem reduceIterations_sum_append {F : Type} (key : IterInfo F → Duration)
    (xs ys : List (IterInfo F)) :
    ({ Iterations := xs ++ ys } : FullInfo F).reduceIterations key sum =
      sum (({ Iterations := xs } : FullInfo F).reduceIterations key sum)
        (({ Iterations := ys } : FullInfo F).reduceIterations key sum) := by
  rw [reduceIterations_sum, reduceIterations_sum, reduceIterations_sum]
  unfold sum
  rw [wrap64_add_both, List.map_append, List.sum_append]

/-- C19: in `int64` arithmetic (`sum` is the addition of two durations),
`TotalTime()` is `TotalTimePreparing() + TotalTimeSolving()`, and each of the
three totals of a report whose iterations are `xs` followed by `ys` is the
total over `xs` plus the total over `ys`; the additions are exact whenever
their exact result is within the `int64` range. -/
theorem C19_totals_algebra {F : Type} (info : FullInfo F) (xs ys : List (IterInfo F)) :
    info.TotalTime = sum info.TotalTimePreparing info.TotalTimeSolving ∧
    (({ Iterations := xs ++ ys } : FullInfo F).TotalTime =
        sum ({ Iterations := xs } : FullInfo F).TotalTime
          ({ Iterations := ys } : FullInfo F).TotalTime ∧
      ({ Iterations := xs ++ ys } : FullInfo F).TotalTimePreparing =
        sum ({ Iterations := xs } : FullInfo F).TotalTimePreparing
          ({ Iterations := ys } : FullInfo F).TotalTimePreparing ∧
      ({ Iterations := xs ++ ys } : FullInfo F).TotalTimeSolving =
        sum ({ Iterations := xs } : FullInfo F).TotalTimeSolving
          ({ Iterations := ys } : FullInfo F).TotalTimeSolving) ∧
    (∀ a c : Duration, sum a c = wrap64 (a + c)) ∧
    (∀ a c : Duration, -2 ^ 63 ≤ a + c → a + c < 2 ^ 63 → sum a c = a + c) := by
  refine ⟨?_, ⟨reduceIterations_sum_append timeSolPrep xs ys,
    reduceIterations_sum_append timePrep xs ys, reduceIterations_sum_append timeSol xs ys⟩,
    fun a c => rfl, fun a c h1 h2 => wrap64_of_range h1 h2⟩
  have e2 : info.TotalTimePreparing
      = wrap64 ((info.Iterations.map (fun it => it.PreparingTime)).sum) :=
    reduceIterations_sum info timePrep
  have e3 : info.TotalTimeSolving
      = wrap64 ((info.Iterations.map (fun it => it.SolvingTime)).sum) :=
    reduceIterations_sum info timeSol
  rw [totalTime_eq, e2, e3]
  unfold sum
  rw [wrap64_add_both, sum_map_add_int]

/-- Witness for C19: for the long-run report the two partial totals are
9 223 369 200 s each, their exact sum is out of range, and the total time is
their wrapped sum; for the timing report the sum 1.5 s + 3.5 s is exact. -/
theorem C19_totals_algebra_witness :
    longRunReport.TotalTime = wrap64 (9223369200000000000 + 9223369200000000000) ∧
    longRunReport.TotalTime = sum longRunReport.TotalTimePreparing longRunReport.TotalTimeSolving ∧
    sum timingReport.TotalTimePreparing timingReport.TotalTimeSolving
      = timingReport.TotalTimePreparing + timingReport.TotalTimeSolving :=
  ⟨by decide, (C19_totals_algebra longRunReport [] []).1,
   (C19_totals_algebra timingReport [] []).2.2.2 _ _ (by decide) (by decide)⟩

end Outfile
